import Mathlib

set_option maxHeartbeats 1000000

/-!
Shallow embedding of the ALMAA v2.0 multi-agent core: response correlation
(core/response_manager.py), the two message buses (core/communication.py and
core/messagebus_sync.py), the debate subsystem (core/debate.py together with
agents/special/moderator.py) and the voting methods (core/voting.py).

Modelling conventions: wall-clock time is a discrete Nat counter (one tick per
sleep of the polling loop), Python dicts are insertion-ordered association
lists, Python sets are duplicate-free lists, and float arithmetic is exact
arithmetic over the rationals or the reals.
-/

/-- core/base.py Message: only the fields the verified code paths read
(sender, recipient, type, content, thread_id). Content dictionaries are
modelled as string-to-string association lists. -/
structure Message where
  sender : String
  recipient : Option String
  type : String
  content : List (String × String)
  thread_id : Option String
deriving Repr, DecidableEq

/-- core/response_manager.py PendingRequest. created_at and timeout are ticks
of the discrete clock. -/
structure PendingRequest where
  request_id : String
  user_request : String
  created_at : Nat
  timeout : Nat
  response : Option Message
  status : String
  thread_id : Option String
deriving Repr, DecidableEq

/-- PendingRequest.is_expired: now - created_at > timeout. Nat subtraction
truncates at zero, which agrees with the Python comparison (a negative
timedelta is never greater than a nonnegative timeout). -/
def PendingRequest.is_expired (r : PendingRequest) (now : Nat) : Bool :=
  now - r.created_at > r.timeout

/-- PendingRequest.complete_with_response. -/
def PendingRequest.complete_with_response (r : PendingRequest) (resp : Message) :
    PendingRequest :=
  { r with response := some resp, status := "completed" }

/-- The state of core/response_manager.py ResponseManager: the pending table
(an insertion-ordered dict keyed by request_id, kept here as a list because
request_id is a field of the entry), the audit list of all received responses,
and the two statistics counters the verified paths touch. -/
structure ResponseManager where
  pending_requests : List PendingRequest
  completed_responses : List Message
  responses_received : Nat
  timeouts : Nat
deriving Repr, DecidableEq

/-- Replace the element at a given position, leaving the list unchanged when
the position is out of range. -/
def modifyAt {α : Type} (f : α → α) : Nat → List α → List α
  | _, [] => []
  | 0, x :: xs => f x :: xs
  | n + 1, x :: xs => x :: modifyAt f n xs

/-- First loop of register_response: index of the first pending request whose
thread_id equals the correlation id of the response and whose status is
pending (dict iteration order is insertion order). -/
def findThreadMatchIdx (t : String) : List PendingRequest → Option Nat
  | [] => none
  | r :: rest =>
    if r.thread_id = some t ∧ r.status = "pending" then some 0
    else (findThreadMatchIdx t rest).map (· + 1)

/-- Second loop of register_response: the left fold that keeps the first
pending request attaining the strictly smallest created_at, rewritten as a
right recursion (the head wins ties against everything after it, exactly as
the fold keeps its accumulator unless a strictly smaller created_at shows up).
Returns the index together with its created_at. -/
def oldestPendingIdx : List PendingRequest → Option (Nat × Nat)
  | [] => none
  | r :: rest =>
    match oldestPendingIdx rest with
    | none => if r.status = "pending" then some (0, r.created_at) else none
    | some (j, c) =>
      if r.status = "pending" then
        if r.created_at ≤ c then some (0, r.created_at) else some (j + 1, c)
      else some (j + 1, c)

/-- ResponseManager.register_response: append the response to the audit list,
bump the counter, look for a thread_id match, fall back to the oldest pending
request whenever that lookup produced nothing, and complete the match. -/
def register_response (st : ResponseManager) (resp : Message) :
    Bool × ResponseManager :=
  let st1 := { st with
    completed_responses := st.completed_responses ++ [resp],
    responses_received := st.responses_received + 1 }
  let threadIdx : Option Nat :=
    match resp.thread_id with
    | some t => findThreadMatchIdx t st1.pending_requests
    | none => none
  let matchedIdx : Option Nat :=
    match threadIdx with
    | some i => some i
    | none => (oldestPendingIdx st1.pending_requests).map (·.1)
  match matchedIdx with
  | some i =>
    (true,
      { st1 with pending_requests :=
          modifyAt (fun r => r.complete_with_response resp) i st1.pending_requests })
  | none => (false, st1)

/-- The matching rule exactly as the specification words it: the oldest-pending
fallback is used only when the envelope carries no correlation id at all. Kept
separate from register_response so the two can be compared. -/
def register_response_spec (st : ResponseManager) (resp : Message) :
    Bool × ResponseManager :=
  let st1 := { st with
    completed_responses := st.completed_responses ++ [resp],
    responses_received := st.responses_received + 1 }
  let matchedIdx : Option Nat :=
    match resp.thread_id with
    | some t => findThreadMatchIdx t st1.pending_requests
    | none => (oldestPendingIdx st1.pending_requests).map (·.1)
  match matchedIdx with
  | some i =>
    (true,
      { st1 with pending_requests :=
          modifyAt (fun r => r.complete_with_response resp) i st1.pending_requests })
  | none => (false, st1)

/-- The four ways a call to get_response can end. The success and error
outcomes carry the stored response of the matched request. -/
inductive GetOutcome where
  | success (response : Option Message)
  | errorOut (response : Option Message)
  | requestTimeout
  | pollTimeout
deriving Repr, DecidableEq

/-- ResponseManager.get_response: one recursive call per polling iteration,
the clock advancing by one tick per sleep. The while guard now < end_time of
the source is carried as the number of remaining ticks (end_time - now), so
the recursion is structural: zero remaining ticks is exactly the exit of the
loop, the poll-level retrieval timeout. Terminal statuses delete the entry
from the pending table in the same iteration. -/
def get_response_loop (st : ResponseManager) (request_id : String) :
    Nat → Nat → GetOutcome × ResponseManager
  | _, 0 => (GetOutcome.pollTimeout, st)
  | now, fuel + 1 =>
    match st.pending_requests.find? (fun r => r.request_id = request_id) with
    | some r =>
      if r.status = "completed" then
        (GetOutcome.success r.response,
         { st with pending_requests :=
            st.pending_requests.filter (fun q => q.request_id ≠ request_id) })
      else if r.status = "error" then
        (GetOutcome.errorOut r.response,
         { st with pending_requests :=
            st.pending_requests.filter (fun q => q.request_id ≠ request_id) })
      else if r.is_expired now then
        (GetOutcome.requestTimeout,
         { st with
            pending_requests :=
              st.pending_requests.filter (fun q => q.request_id ≠ request_id),
            timeouts := st.timeouts + 1 })
      else get_response_loop st request_id (now + 1) fuel
    | none => get_response_loop st request_id (now + 1) fuel

/-- Line 200 of the cleanup loop: every expired entry has its status field
overwritten with timeout, whatever that status was before. -/
def cleanup_mark (now : Nat) (l : List PendingRequest) : List PendingRequest :=
  l.map (fun r => if r.is_expired now then { r with status := "timeout" } else r)

/-- One sweep of ResponseManager._cleanup_loop: mark every expired entry as
timeout, count it, and delete it from the pending table. -/
def cleanup_sweep (st : ResponseManager) (now : Nat) : ResponseManager :=
  { st with
    pending_requests :=
      (cleanup_mark now st.pending_requests).filter (fun r => ¬ r.is_expired now),
    timeouts :=
      st.timeouts + (st.pending_requests.filter (fun r => r.is_expired now)).length }

/-- core/base.py BaseAgent, restricted to the fields the buses touch: the
registry name and the inbound queue. -/
structure Agent where
  name : String
  inbox : List Message
deriving Repr, DecidableEq

/-- Shared state shape of core/communication.py MessageBus and
core/messagebus_sync.py MessageBusSync: the agent registry (a dict keyed by
agent name), the per-type subscriber sets (duplicate-free lists), and the
statistics counters. -/
structure BusState where
  agents : List Agent
  subscribers : List (String × List String)
  messages_sent : Nat
  messages_delivered : Nat
  messages_failed : Nat
deriving Repr, DecidableEq

/-- self.subscribers.get(message.type, set()). -/
def subsFor (bus : BusState) (t : String) : List String :=
  match bus.subscribers.find? (fun p => p.1 = t) with
  | some p => p.2
  | none => []

/-- subscriber in self.agents. -/
def isRegistered (agents : List Agent) (n : String) : Bool :=
  agents.any (fun a => a.name = n)

/-- self.agents[n].receive_message(message): append the message to the inbox
of the agent registered under that name. -/
def receiveMsg (agents : List Agent) (n : String) (m : Message) : List Agent :=
  agents.map (fun a => if a.name = n then { a with inbox := a.inbox ++ [m] } else a)

/-- The broadcast loop shared by both buses: walk the subscriber set and hand
the message to every registered subscriber other than the sender. Returns the
updated registry, the delivered flag, and how many copies were placed. -/
def broadcastFold (m : Message) :
    List String → List Agent → Bool → Nat → List Agent × Bool × Nat
  | [], agents, d, k => (agents, d, k)
  | s :: rest, agents, d, k =>
    if isRegistered agents s ∧ s ≠ m.sender then
      broadcastFold m rest (receiveMsg agents s m) true (k + 1)
    else broadcastFold m rest agents d k

namespace MessageBus

/-- core/communication.py MessageBus._deliver_message. On a broadcast that
reached at least one subscriber, messages_delivered is increased by the size
of the whole subscriber set (line 123), not by the number of copies placed. -/
def deliver_message (bus : BusState) (m : Message) : BusState :=
  match m.recipient with
  | some rcpt =>
    if isRegistered bus.agents rcpt then
      { bus with
        agents := receiveMsg bus.agents rcpt m,
        messages_delivered := bus.messages_delivered + 1 }
    else { bus with messages_failed := bus.messages_failed + 1 }
  | none =>
    let subs := subsFor bus m.type
    let res := broadcastFold m subs bus.agents false 0
    if res.2.1 then
      { bus with
        agents := res.1,
        messages_delivered := bus.messages_delivered + subs.length }
    else { bus with agents := res.1 }

end MessageBus

namespace MessageBusSync

/-- core/messagebus_sync.py MessageBusSync._deliver_message. Identical
routing; on broadcast, messages_delivered is increased once per copy actually
placed (line 76). -/
def deliver_message (bus : BusState) (m : Message) : BusState :=
  match m.recipient with
  | some rcpt =>
    if isRegistered bus.agents rcpt then
      { bus with
        agents := receiveMsg bus.agents rcpt m,
        messages_delivered := bus.messages_delivered + 1 }
    else { bus with messages_failed := bus.messages_failed + 1 }
  | none =>
    let subs := subsFor bus m.type
    let res := broadcastFold m subs bus.agents false 0
    { bus with
      agents := res.1,
      messages_delivered := bus.messages_delivered + res.2.2 }

end MessageBusSync

/-- core/debate.py Argument, without the uuid and the wall-clock timestamp. -/
structure Argument where
  position : String
  reasoning : String
  evidence : List String
  author : Option String
  votes : Nat
deriving Repr, DecidableEq

/-- core/debate.py DebateRound: the per-participant argument log is the dict
comprehension of the constructor, keyed by the participant list. -/
structure DebateRound where
  number : Nat
  participants : List String
  arguments : List (String × List Argument)
  status : String
deriving Repr, DecidableEq

/-- DebateRound constructor: one empty log per participant, status open. -/
def DebateRound.make (n : Nat) (ps : List String) : DebateRound :=
  { number := n,
    participants := ps,
    arguments := ps.map (fun p => (p, [])),
    status := "open" }

/-- DebateRound.add_argument: accepted exactly when the participant keys the
argument dict; the author field is stamped on acceptance. The status field is
never consulted. -/
def DebateRound.add_argument (rd : DebateRound) (participant : String)
    (arg : Argument) : DebateRound :=
  if (rd.arguments.find? (fun p => p.1 = participant)).isSome then
    { rd with arguments :=
        rd.arguments.map (fun p =>
          if p.1 = participant then (p.1, p.2 ++ [{ arg with author := some participant }])
          else p) }
  else rd

/-- DebateRound.close. -/
def DebateRound.close (rd : DebateRound) : DebateRound :=
  { rd with status := "closed" }

/-- agents/special/moderator.py _check_round_completion, line 262: the round
is complete when the set of participants that already submitted is a superset
of the expected participant set. -/
def round_complete (arguments_received : List String)
    (participants : List String) : Bool :=
  decide (participants.toFinset ⊆ arguments_received.toFinset)

/-- The slice of DebateModerator state that drives one debate: the number of
rounds held so far (len of debate.rounds), the debate status, the expected
participant list, and the arguments_received tracking entry of
debate_rounds_status — present while the debate is tracked, deleted by
conclude_debate. -/
structure ModState where
  roundsCount : Nat
  debateStatus : String
  participants : List String
  arguments_received : Option (List String)
deriving Repr, DecidableEq

/-- create_debate: build the debate and immediately start round one
(moderator.py line 116), which resets the tracking entry. -/
def createDebate (ps : List String) : ModState :=
  { roundsCount := 1,
    debateStatus := "active",
    participants := ps,
    arguments_received := some [] }

/-- One handle_argument_submission event, with the outcome of the round
analysis abstracted as an action string. The argument is logged, the sender is
appended to arguments_received, and when the received set covers the expected
set the moderator either starts the next round (action continuer and fewer
than 3 rounds held, the literal cap of moderator.py line 287) or concludes,
deleting the tracking entry. After conclusion the tracking entry is gone, so
the completion check dies on the missing key and the state is left as is. -/
def submitStep (st : ModState) (p : String) (action : String) : ModState :=
  match st.arguments_received with
  | none => st
  | some recv =>
    let recv2 := recv ++ [p]
    if round_complete recv2 st.participants then
      if action = "continuer" ∧ st.roundsCount < 3 then
        { st with
          roundsCount := st.roundsCount + 1,
          debateStatus := "active",
          arguments_received := some [] }
      else
        { st with debateStatus := "closed", arguments_received := none }
    else { st with arguments_received := some recv2 }

/-- A whole run of the debate: fold the submission events over the state. -/
def runDebate (ps : List String) (events : List (String × String)) : ModState :=
  events.foldl (fun st e => submitStep st e.1 e.2) (createDebate ps)

/-- Result record of core/voting.py ranked_choice_vote. percentage is present
only on a majority exit (the other two returns do not set the key). -/
structure RankedResult where
  winner : Option String
  final_round : Nat
  percentage : Option ℚ
  elimination_rounds : List (Nat × String × Nat)
deriving Repr, DecidableEq

/-- The inner loop of the tally: the first ranked choice still in contention. -/
def firstChoiceOf (candidates : List String) (rankings : List String) :
    Option String :=
  rankings.find? (fun c => candidates.contains c)

/-- defaultdict(int) increment, keeping dict insertion order. -/
def bump (acc : List (String × Nat)) (c : String) : List (String × Nat) :=
  if acc.any (fun p => p.1 = c) then
    acc.map (fun p => if p.1 = c then (p.1, p.2 + 1) else p)
  else acc ++ [(c, 1)]

/-- first_choices: one pass over the voters, counting each voter first ranked
choice still in contention. -/
def tallyFirstChoices (candidates : List String)
    (votes : List (String × List String)) : List (String × Nat) :=
  votes.foldl
    (fun acc v =>
      match firstChoiceOf candidates v.2 with
      | some c => bump acc c
      | none => acc)
    []

/-- The majority scan: first tallied option whose count exceeds half of the
ballots counted this round (Python true division, exact over the rationals). -/
def findMajority (tallies : List (String × Nat)) (total : Nat) :
    Option (String × Nat) :=
  tallies.find? (fun kc => (total : ℚ) / 2 < (kc.2 : ℚ))

/-- Python min over the tally dict keyed by count: the fold keeps the first
entry attaining the minimum (replacement only on strictly smaller count). -/
def pythonMinByCount (tallies : List (String × Nat)) : Option (String × Nat) :=
  match tallies with
  | [] => none
  | x :: xs =>
    some (xs.foldl (fun best y => if y.2 < best.2 then y else best) x)

/-- The while loop of ranked_choice_vote. The fuel argument only bounds the
recursion; one candidate is erased per recursive call, so any fuel of at least
the number of candidates reproduces the loop exactly. -/
def rankedLoop (votes : List (String × List String)) :
    Nat → List String → Nat → List (Nat × String × Nat) → RankedResult
  | 0, candidates, rn, elims =>
    { winner := if candidates.length = 1 then candidates.head? else none,
      final_round := rn, percentage := none, elimination_rounds := elims }
  | fuel + 1, candidates, rn, elims =>
    if candidates.length > 1 then
      let tallies := tallyFirstChoices candidates votes
      let total := (tallies.map (·.2)).sum
      if total = 0 then
        { winner := none, final_round := rn, percentage := none,
          elimination_rounds := elims }
      else
        match findMajority tallies total with
        | some ct =>
          { winner := some ct.1, final_round := rn,
            percentage := some ((ct.2 : ℚ) / (total : ℚ) * 100),
            elimination_rounds := elims }
        | none =>
          match pythonMinByCount tallies with
          | some et =>
            rankedLoop votes fuel (candidates.erase et.1) (rn + 1)
              (elims ++ [(rn, et.1, et.2)])
          | none =>
            { winner := none, final_round := rn, percentage := none,
              elimination_rounds := elims }
    else
      { winner := if candidates.length = 1 then candidates.head? else none,
        final_round := rn, percentage := none, elimination_rounds := elims }

/-- core/voting.py ranked_choice_vote. set(options) is modelled as the
duplicate-free list in first-occurrence order. -/
def ranked_choice_vote (options : List String)
    (votes : List (String × List String)) : RankedResult :=
  rankedLoop votes (options.dedup.length + 1) options.dedup 1 []

noncomputable section

/-- option_scores[option].append(score) for the defaultdict(list) of
consensus_vote, keeping dict insertion order. -/
def addScore (acc : List (String × List ℝ)) (o : String) (s : ℝ) :
    List (String × List ℝ) :=
  if acc.any (fun p => p.1 = o) then
    acc.map (fun p => if p.1 = o then (p.1, p.2 ++ [s]) else p)
  else acc ++ [(o, [s])]

/-- The collection pass of consensus_vote: every score a voter gave to an
option that is in the candidate list, grouped per option. -/
def collectScores (options : List String)
    (votes : List (String × List (String × ℝ))) : List (String × List ℝ) :=
  votes.foldl
    (fun acc v =>
      v.2.foldl
        (fun acc2 os =>
          if options.contains os.1 then addScore acc2 os.1 os.2 else acc2)
        acc)
    []

/-- avg_score of consensus_vote. -/
def meanOf (scores : List ℝ) : ℝ := scores.sum / scores.length

/-- The population variance of consensus_vote (division by the count). -/
def pvarOf (scores : List ℝ) : ℝ :=
  ((scores.map (fun s => (s - meanOf scores) ^ 2)).sum) / scores.length

/-- One entry of the consensus_results dict. -/
structure ConsensusEntry where
  average_score : ℝ
  consensus_level : ℝ
  is_consensus : Bool

/-- The consensus_results dict: for each scored option, the mean, the level
1 - sqrt(variance) (the source computes variance ** 0.5, which is the square
root since the variance is nonnegative), and the threshold flag at 0.7. -/
def consensusResults (collected : List (String × List ℝ)) :
    List (String × ConsensusEntry) :=
  collected.filterMap (fun p =>
    if p.2 = [] then none
    else
      let avg := meanOf p.2
      let consensus := 1 - Real.sqrt (pvarOf p.2)
      some (p.1,
        { average_score := avg,
          consensus_level := consensus,
          is_consensus := if 0.7 ≤ consensus then true else false }))

/-- The key the source max uses, as a lexicographically ordered pair: Python
compares the tuples (consensus_level, average_score) lexicographically. -/
def keyOf (e : ConsensusEntry) : ℝ ×ₗ ℝ := toLex (e.consensus_level, e.average_score)

/-- best_option of consensus_vote: Python max keeps the current best and
replaces it only when a later entry compares strictly greater, so the first
entry attaining the maximum wins. -/
def pythonArgmax (l : List (String × ConsensusEntry)) :
    Option (String × ConsensusEntry) :=
  match l with
  | [] => none
  | x :: xs =>
    some (xs.foldl (fun best y => if keyOf best.2 < keyOf y.2 then y else best) x)

/-- Return record of consensus_vote (winner and the results dict). -/
structure ConsensusOutcome where
  winner : Option String
  results : List (String × ConsensusEntry)

/-- core/voting.py consensus_vote: collect the scores, build the results,
take the best option by (consensus level, mean score) and declare it winner
exactly when its is_consensus flag — looked up again in the results dict with
default false, as in line 123 — is set. -/
def consensus_vote (options : List String)
    (votes : List (String × List (String × ℝ))) : ConsensusOutcome :=
  let results := consensusResults (collectScores options votes)
  let best := pythonArgmax results
  { winner :=
      match best with
      | some b =>
        if ((results.find? (fun p => p.1 = b.1)).map
              (fun p => p.2.is_consensus)).getD false
        then some b.1 else none
      | none => none,
    results := results }

/-- The consensus level exactly as the claim words it: 1 minus the population
standard deviation, clamped to be at least 0. -/
def specConsensusLevel (scores : List ℝ) : ℝ :=
  max 0 (1 - Real.sqrt (pvarOf scores))

/-- The results dict as the claim describes it, with the clamped level. -/
def specConsensusResults (collected : List (String × List ℝ)) :
    List (String × ConsensusEntry) :=
  collected.filterMap (fun p =>
    if p.2 = [] then none
    else
      some (p.1,
        { average_score := meanOf p.2,
          consensus_level := specConsensusLevel p.2,
          is_consensus := if 0.7 ≤ specConsensusLevel p.2 then true else false }))

end

/-- Fixture: a response envelope carrying correlation id X. -/
def respX : Message :=
  { sender := "Chef", recipient := some "User", type := "RESPONSE",
    content := [("message", "hi")], thread_id := some "X" }

/-- Fixture: a pending request whose correlation id is Y, not X. -/
def rPendY : PendingRequest :=
  { request_id := "r1", user_request := "hello", created_at := 0, timeout := 30,
    response := none, status := "pending", thread_id := some "Y" }

/-- Fixture: a manager with the single pending request rPendY. -/
def stOnePending : ResponseManager :=
  { pending_requests := [rPendY], completed_responses := [],
    responses_received := 0, timeouts := 0 }

/-- Fixture: a request that was matched with a response (status completed)
but never retrieved, and whose timeout of 5 ticks has passed by tick 10. -/
def rDone : PendingRequest :=
  { request_id := "r2", user_request := "q", created_at := 0, timeout := 5,
    response := some respX, status := "completed", thread_id := none }

/-- Fixture: a manager holding only the completed request rDone. -/
def stOneDone : ResponseManager :=
  { pending_requests := [rDone], completed_responses := [],
    responses_received := 0, timeouts := 0 }

/-- Fixture: an argument as submitted, author not yet stamped. -/
def arg0 : Argument :=
  { position := "pour", reasoning := "raison", evidence := [], author := none,
    votes := 0 }

/-- Fixture: a closed round whose participant list is A, B. -/
def closedRound : DebateRound := (DebateRound.make 1 ["A", "B"]).close

/-- Fixture: a bus with registered agents A and B, where A, B and the
unregistered name Ghost are subscribed to NEWS. -/
def busAB : BusState :=
  { agents := [{ name := "A", inbox := [] }, { name := "B", inbox := [] }],
    subscribers := [("NEWS", ["A", "B", "Ghost"])],
    messages_sent := 0, messages_delivered := 0, messages_failed := 0 }

/-- Fixture: a broadcast (no recipient) of type NEWS sent by A. -/
def mNews : Message :=
  { sender := "A", recipient := none, type := "NEWS", content := [],
    thread_id := none }

/-- Total number of messages sitting in inboxes, used to count how many
copies of a broadcast were actually placed. -/
def totalInbox (agents : List Agent) : Nat :=
  (agents.map (fun a => a.inbox.length)).sum

theorem round_complete_iff (received participants : List String) :
    round_complete received participants = true ↔ ∀ p ∈ participants, p ∈ received := by
  simp [round_complete, Finset.subset_iff, List.mem_toFinset]

/-- Claim C4: a debate round counts as complete exactly when the set of
participants that submitted this round is a superset of the expected
participant set, independently of order, with duplicates not double counting;
an incomplete submission set leaves the round open without triggering
analysis or conclusion, and in particular two distinct submitters out of
three expected leave the round open. -/
theorem C4_round_completion_superset :
    (∀ received participants : List String,
        round_complete received participants = true ↔ ∀ p ∈ participants, p ∈ received) ∧
    (∀ received received2 participants : List String, received.Perm received2 →
        round_complete received participants = round_complete received2 participants) ∧
    (∀ received participants : List String,
        round_complete received.dedup participants = round_complete received participants) ∧
    (∀ (st : ModState) (p a : String) (recv : List String),
        st.arguments_received = some recv →
        round_complete (recv ++ [p]) st.participants = false →
        submitStep st p a = { st with arguments_received := some (recv ++ [p]) }) ∧
    (∀ (x y z : String) (received : List String), x ≠ y → x ≠ z → y ≠ z →
        (∀ q ∈ received, q = x ∨ q = y) →
        round_complete received [x, y, z] = false) := by
  refine ⟨round_complete_iff, ?_, ?_, ?_, ?_⟩
  · intro received received2 participants hperm
    simp [round_complete, List.toFinset_eq_of_perm _ _ hperm]
  · intro received participants
    have h : received.dedup.toFinset = received.toFinset :=
      List.toFinset.ext (fun x => List.mem_dedup)
    simp [round_complete, h]
  · intro st p a recv hrs hinc
    unfold submitStep
    rw [hrs]
    simp [hinc]
  · intro x y z received hxy hxz hyz hsub
    rw [← Bool.not_eq_true, round_complete_iff]
    intro hall
    have hz := hall z (by simp)
    rcases hsub z hz with h | h
    · exact hxz h.symm
    · exact hyz h.symm

/-- Witness for C4 at a concrete round: submissions from only A and B with an
expected set of A, B, C do not complete the round, and the moderator step
merely records the submission. -/
theorem C4_witness :
    round_complete ["A", "B", "A"] ["A", "B", "C"] = false ∧
    submitStep (createDebate ["A", "B", "C"]) "A" "continuer" =
      { createDebate ["A", "B", "C"] with arguments_received := some ["A"] } := by
  refine ⟨?_, ?_⟩
  · exact C4_round_completion_superset.2.2.2.2 "A" "B" "C" ["A", "B", "A"]
      (by decide) (by decide) (by decide) (by decide)
  · exact C4_round_completion_superset.2.2.2.1 (createDebate ["A", "B", "C"])
      "A" "continuer" [] rfl (by decide)

/-- Claim C9, counterexample: DebateRound.add_argument never consults the
round status, so a closed round still accepts an argument from a listed
participant and its argument log changes, contradicting the claim that a
submission to a closed round leaves the log unchanged. -/
theorem C9_counterexample_closed_round_accepts :
    closedRound.status = "closed" ∧
    "A" ∈ closedRound.participants ∧
    (closedRound.add_argument "A" arg0).arguments ≠ closedRound.arguments := by
  decide

/-- Claim C9 as amended: an argument submission is accepted into the log
exactly when the submitting participant keys the argument dict (equivalently,
for a freshly built round, is in the participant list); the round status is
never consulted, so acceptance is independent of it and closed rounds accept
as well. -/
theorem C9_add_argument_amended (rd : DebateRound) (p : String) (a : Argument) :
    ((rd.arguments.find? (fun q => q.1 = p)).isSome = false → rd.add_argument p a = rd) ∧
    ((rd.arguments.find? (fun q => q.1 = p)).isSome = true →
        (rd.add_argument p a).arguments =
          rd.arguments.map (fun q =>
            if q.1 = p then (q.1, q.2 ++ [{ a with author := some p }]) else q) ∧
        (rd.add_argument p a).status = rd.status ∧
        (rd.add_argument p a).participants = rd.participants) ∧
    (∀ s : String, DebateRound.add_argument { rd with status := s } p a =
        { rd.add_argument p a with status := s }) ∧
    (∀ (n : Nat) (ps : List String),
        (((DebateRound.make n ps).arguments.find? (fun q => q.1 = p)).isSome = true ↔
          p ∈ ps)) := by
  refine ⟨?_, ?_, ?_, ?_⟩
  · intro h
    simp [DebateRound.add_argument, h]
  · intro h
    simp [DebateRound.add_argument, h]
  · intro s
    by_cases h : (rd.arguments.find? (fun q => q.1 = p)).isSome = true
    · simp [DebateRound.add_argument, h]
    · simp [DebateRound.add_argument, h]
  · intro n ps
    simp [DebateRound.make, List.find?_isSome]

/-- Witness for C9 at the concrete closed round: the amended rule applied to
closedRound shows acceptance with the author stamped and the status left
closed. -/
theorem C9_witness :
    (closedRound.add_argument "A" arg0).arguments =
      closedRound.arguments.map (fun q =>
        if q.1 = "A" then (q.1, q.2 ++ [{ arg0 with author := some "A" }]) else q) ∧
    (closedRound.add_argument "A" arg0).status = closedRound.status := by
  have h := C9_add_argument_amended closedRound "A" arg0
  exact ⟨(h.2.1 (by decide)).1, (h.2.1 (by decide)).2.1⟩

theorem submitStep_roundsCount_le (st : ModState) (p a : String)
    (h : st.roundsCount ≤ 3) : (submitStep st p a).roundsCount ≤ 3 := by
  unfold submitStep
  cases hrs : st.arguments_received with
  | none => simpa using h
  | some recv =>
    by_cases hc : round_complete (recv ++ [p]) st.participants = true
    · by_cases hk : a = "continuer" ∧ st.roundsCount < 3
      · simp [hc, hk]
        omega
      · simp [hc, hk, h]
    · simp [hc, h]

/-- Claim C5: after a round completes, a next round starts exactly when the
analysis action is continuer and strictly fewer than 3 rounds were held; in
every other completed case the debate is concluded; consequently no run of
the debate ever holds more than 3 rounds, and the debate reaches status
closed only on an event whose round had received submissions from every
expected participant. -/
theorem C5_round_cap_and_conclusion :
    (∀ (ps : List String) (events : List (String × String)),
        (runDebate ps events).roundsCount ≤ 3) ∧
    (∀ (st : ModState) (p a : String) (recv : List String),
        st.arguments_received = some recv →
        ((submitStep st p a).roundsCount = st.roundsCount + 1 ↔
          round_complete (recv ++ [p]) st.participants = true ∧
            a = "continuer" ∧ st.roundsCount < 3)) ∧
    (∀ (st : ModState) (p a : String) (recv : List String),
        st.arguments_received = some recv →
        round_complete (recv ++ [p]) st.participants = true →
        ¬(a = "continuer" ∧ st.roundsCount < 3) →
        submitStep st p a = { st with debateStatus := "closed", arguments_received := none }) ∧
    (∀ (st : ModState) (p a : String),
        st.debateStatus ≠ "closed" → (submitStep st p a).debateStatus = "closed" →
        ∃ recv, st.arguments_received = some recv ∧
          round_complete (recv ++ [p]) st.participants = true ∧
          ∀ q ∈ st.participants, q ∈ recv ++ [p]) := by
  refine ⟨?_, ?_, ?_, ?_⟩
  · intro ps events
    unfold runDebate
    have main : ∀ (st : ModState), st.roundsCount ≤ 3 →
        (events.foldl (fun s e => submitStep s e.1 e.2) st).roundsCount ≤ 3 := by
      induction events with
      | nil => intro st h; simpa using h
      | cons e rest ih =>
        intro st h
        simp only [List.foldl]
        exact ih _ (submitStep_roundsCount_le st e.1 e.2 h)
    exact main (createDebate ps) (by simp [createDebate])
  · intro st p a recv hrs
    unfold submitStep
    rw [hrs]
    by_cases hc : round_complete (recv ++ [p]) st.participants = true
    · by_cases hk : a = "continuer" ∧ st.roundsCount < 3
      · simp [hc, hk]
      · simp [hc, hk]
    · simp [hc]
  · intro st p a recv hrs hc hk
    unfold submitStep
    rw [hrs]
    simp [hc, hk]
  · intro st p a hne hcl
    revert hcl
    unfold submitStep
    cases hrs : st.arguments_received with
    | none => intro hcl; exact absurd hcl hne
    | some recv =>
      by_cases hc : round_complete (recv ++ [p]) st.participants = true
      · by_cases hk : a = "continuer" ∧ st.roundsCount < 3
        · simp [hc, hk]
        · intro _
          exact ⟨recv, rfl, hc, (round_complete_iff _ _).mp hc⟩
      · simp [hc]
        intro hcl
        exact absurd hcl hne

/-- Witness for C5: a concrete two-event run stays within the round cap, and
a concrete completed round at the cap with action continuer still concludes
the debate. -/
theorem C5_witness :
    (runDebate ["A", "B"] [("A", "continuer"), ("B", "continuer")]).roundsCount ≤ 3 ∧
    submitStep
        { roundsCount := 3, debateStatus := "active", participants := ["A"],
          arguments_received := some [] } "A" "continuer" =
      { roundsCount := 3, debateStatus := "closed", participants := ["A"],
        arguments_received := none } := by
  refine ⟨C5_round_cap_and_conclusion.1 ["A", "B"] [("A", "continuer"), ("B", "continuer")], ?_⟩
  exact C5_round_cap_and_conclusion.2.2.1
    { roundsCount := 3, debateStatus := "active", participants := ["A"],
      arguments_received := some [] } "A" "continuer" [] rfl (by decide) (by decide)

theorem mem_filter_ne_request_id (l : List PendingRequest) (id2 : String) :
    ∀ r ∈ l.filter (fun q => q.request_id ≠ id2), r.request_id ≠ id2 := by
  intro r hr
  simp only [List.mem_filter, ne_eq, decide_not, Bool.not_eq_eq_eq_not,
    Bool.not_true, decide_eq_false_iff_not] at hr
  exact hr.2

/-- Claim C1: for every request id and poll window, one call to get_response
returns exactly one of the four outcomes (success with the stored response,
explicit error, request-level timeout, poll-level retrieval timeout) and
never nothing; whenever the outcome is not the poll-level timeout, the
pending table of the resulting state no longer holds the request. -/
theorem C1_get_response_total_and_removal (st : ResponseManager) (id2 : String)
    (now fuel : Nat) :
    ((∃ m, (get_response_loop st id2 now fuel).1 = GetOutcome.success m) ∨
     (∃ m, (get_response_loop st id2 now fuel).1 = GetOutcome.errorOut m) ∨
     (get_response_loop st id2 now fuel).1 = GetOutcome.requestTimeout ∨
     (get_response_loop st id2 now fuel).1 = GetOutcome.pollTimeout) ∧
    ((get_response_loop st id2 now fuel).1 ≠ GetOutcome.pollTimeout →
      ∀ r ∈ (get_response_loop st id2 now fuel).2.pending_requests,
        r.request_id ≠ id2) := by
  induction fuel generalizing now with
  | zero =>
    simp [get_response_loop]
  | succ n ih =>
    rw [get_response_loop]
    cases hf : st.pending_requests.find? (fun r => r.request_id = id2) with
    | none => exact ih (now + 1)
    | some r =>
      by_cases h1 : r.status = "completed"
      · simp only [h1, if_true]
        exact ⟨by simp, fun _ => mem_filter_ne_request_id st.pending_requests id2⟩
      · by_cases h2 : r.status = "error"
        · simp only [h1, h2, if_false, if_true]
          exact ⟨by simp, fun _ => mem_filter_ne_request_id st.pending_requests id2⟩
        · by_cases h3 : r.is_expired now
          · simp only [h1, h2, h3, if_false, if_true]
            exact ⟨by simp, fun _ => mem_filter_ne_request_id st.pending_requests id2⟩
          · simp only [h1, h2, h3, if_false]
            exact ih (now + 1)

/-- Witness for C1: in a manager holding the completed request r2, retrieval
returns the success outcome and the resulting pending table no longer holds
r2. -/
theorem C1_witness :
    (get_response_loop stOneDone "r2" 0 5).1 = GetOutcome.success (some respX) ∧
    ∀ r ∈ (get_response_loop stOneDone "r2" 0 5).2.pending_requests,
      r.request_id ≠ "r2" := by
  refine ⟨by decide, ?_⟩
  exact (C1_get_response_total_and_removal stOneDone "r2" 0 5).2 (by decide)

theorem findThreadMatchIdx_pending (t : String) :
    ∀ (l : List PendingRequest) (i : Nat), findThreadMatchIdx t l = some i →
      ∃ r, l.get? i = some r ∧ r.thread_id = some t ∧ r.status = "pending" := by
  intro l
  induction l with
  | nil => intro i h; simp [findThreadMatchIdx] at h
  | cons r rest ih =>
    intro i h
    rw [findThreadMatchIdx] at h
    by_cases hc : r.thread_id = some t ∧ r.status = "pending"
    · rw [if_pos hc] at h
      cases h
      exact ⟨r, rfl, hc.1, hc.2⟩
    · rw [if_neg hc] at h
      rw [Option.map_eq_some'] at h
      obtain ⟨j, hj, rfl⟩ := h
      obtain ⟨q, hq, h1, h2⟩ := ih j hj
      exact ⟨q, by simpa using hq, h1, h2⟩

theorem oldestPendingIdx_isSome (l : List PendingRequest) :
    (oldestPendingIdx l).isSome = true ↔ ∃ r ∈ l, r.status = "pending" := by
  induction l with
  | nil => simp [oldestPendingIdx]
  | cons r rest ih =>
    rw [oldestPendingIdx]
    cases h : oldestPendingIdx rest with
    | none =>
      have hrest : ¬ ∃ q ∈ rest, q.status = "pending" := by
        rw [← ih, h]
        simp
      by_cases hp : r.status = "pending"
      · simp [hp]
      · simp [hp, hrest]
    | some jc =>
      obtain ⟨j0, c0⟩ := jc
      have hrest : ∃ q ∈ rest, q.status = "pending" := by
        rw [← ih, h]
        simp
      obtain ⟨q, hq, hqp⟩ := hrest
      refine iff_of_true ?_ ⟨q, List.mem_cons_of_mem r hq, hqp⟩
      by_cases hp : r.status = "pending"
      · by_cases hle : r.created_at ≤ c0 <;> simp [hp, hle]
      · simp [hp]

theorem oldestPendingIdx_spec (l : List PendingRequest) :
    ∀ j c, oldestPendingIdx l = some (j, c) →
      ∃ r, l.get? j = some r ∧ r.status = "pending" ∧ r.created_at = c ∧
        ∀ q ∈ l, q.status = "pending" → c ≤ q.created_at := by
  induction l with
  | nil => intro j c h; simp [oldestPendingIdx] at h
  | cons r rest ih =>
    intro j c h
    rw [oldestPendingIdx] at h
    cases hrest : oldestPendingIdx rest with
    | none =>
      rw [hrest] at h
      dsimp only at h
      have hnop : ¬ ∃ q ∈ rest, q.status = "pending" := by
        rw [← oldestPendingIdx_isSome, hrest]
        simp
      by_cases hp : r.status = "pending"
      · rw [if_pos hp] at h
        cases h
        refine ⟨r, rfl, hp, rfl, ?_⟩
        intro q hq hqp
        rcases List.mem_cons.mp hq with rfl | hq
        · exact le_refl _
        · exact absurd ⟨q, hq, hqp⟩ hnop
      · rw [if_neg hp] at h
        cases h
    | some jc =>
      obtain ⟨j0, c0⟩ := jc
      rw [hrest] at h
      dsimp only at h
      obtain ⟨q0, hq0get, hq0p, hq0c, hq0min⟩ := ih j0 c0 hrest
      by_cases hp : r.status = "pending"
      · by_cases hle : r.created_at ≤ c0
        · rw [if_pos hp, if_pos hle] at h
          cases h
          refine ⟨r, rfl, hp, rfl, ?_⟩
          intro q hq hqp
          rcases List.mem_cons.mp hq with rfl | hq
          · exact le_refl _
          · exact le_trans hle (hq0min q hq hqp)
        · rw [if_pos hp, if_neg hle] at h
          cases h
          refine ⟨q0, by simpa using hq0get, hq0p, hq0c, ?_⟩
          intro q hq hqp
          rcases List.mem_cons.mp hq with rfl | hq
          · exact le_of_lt (by omega)
          · exact hq0min q hq hqp
      · rw [if_neg hp] at h
        cases h
        refine ⟨q0, by simpa using hq0get, hq0p, hq0c, ?_⟩
        intro q hq hqp
        rcases List.mem_cons.mp hq with rfl | hq
        · exact absurd hqp hp
        · exact hq0min q hq hqp

/-- Claim C2, counterexample: an envelope that carries correlation id X while
the single pending request has correlation id Y is still matched (via the
oldest-pending fallback) and the call returns True, whereas the claimed rule
(fallback only when the envelope carries no correlation id) would report no
match and return False. -/
theorem C2_counterexample_fallback_despite_thread_id :
    respX.thread_id = some "X" ∧ rPendY.thread_id = some "Y" ∧
    (register_response stOnePending respX).1 = true ∧
    (register_response_spec stOnePending respX).1 = false := by
  decide

/-- Claim C2 as amended: register_response always appends the response to the
audit list; it reports a match exactly when some pending-status request
exists; a thread_id match (same correlation id, status pending, first in
insertion order) takes priority, and whenever that lookup fails — because the
envelope carries no correlation id, or because it carries one that matches no
pending request — the call falls back to the single oldest pending request by
creation time (first one on ties) and completes it. -/
theorem C2_register_response_amended (st : ResponseManager) (resp : Message) :
    (register_response st resp).2.completed_responses = st.completed_responses ++ [resp] ∧
    ((register_response st resp).1 = true ↔ ∃ r ∈ st.pending_requests, r.status = "pending") ∧
    (∀ t i, resp.thread_id = some t →
        findThreadMatchIdx t st.pending_requests = some i →
        (register_response st resp).2.pending_requests =
          modifyAt (fun r => r.complete_with_response resp) i st.pending_requests ∧
        ∃ r, st.pending_requests.get? i = some r ∧ r.thread_id = some t ∧
          r.status = "pending") ∧
    (∀ j c, (resp.thread_id = none ∨
          ∃ t, resp.thread_id = some t ∧
            findThreadMatchIdx t st.pending_requests = none) →
        oldestPendingIdx st.pending_requests = some (j, c) →
        (register_response st resp).2.pending_requests =
          modifyAt (fun r => r.complete_with_response resp) j st.pending_requests ∧
        ∃ r, st.pending_requests.get? j = some r ∧ r.status = "pending" ∧
          r.created_at = c ∧
          ∀ q ∈ st.pending_requests, q.status = "pending" → c ≤ q.created_at) := by
  refine ⟨?_, ?_, ?_, ?_⟩
  · cases h : resp.thread_id with
    | none =>
      cases ho : oldestPendingIdx st.pending_requests with
      | none => simp [register_response, h, ho]
      | some jc => simp [register_response, h, ho]
    | some t =>
      cases hf : findThreadMatchIdx t st.pending_requests with
      | none =>
        cases ho : oldestPendingIdx st.pending_requests with
        | none => simp [register_response, h, hf, ho]
        | some jc => simp [register_response, h, hf, ho]
      | some i => simp [register_response, h, hf]
  · cases h : resp.thread_id with
    | none =>
      cases ho : oldestPendingIdx st.pending_requests with
      | none =>
        have hno : ¬ ∃ r ∈ st.pending_requests, r.status = "pending" := by
          intro hex
          have := (oldestPendingIdx_isSome st.pending_requests).mpr hex
          rw [ho] at this
          simp at this
        simp [register_response, h, ho, hno]
      | some jc =>
        have hyes : ∃ r ∈ st.pending_requests, r.status = "pending" := by
          apply (oldestPendingIdx_isSome st.pending_requests).mp
          rw [ho]
          rfl
        simp [register_response, h, ho, hyes]
    | some t =>
      cases hf : findThreadMatchIdx t st.pending_requests with
      | some i =>
        obtain ⟨r, hr, _, hrp⟩ := findThreadMatchIdx_pending t st.pending_requests i hf
        have hyes : ∃ q ∈ st.pending_requests, q.status = "pending" :=
          ⟨r, List.get?_mem hr, hrp⟩
        simp [register_response, h, hf, hyes]
      | none =>
        cases ho : oldestPendingIdx st.pending_requests with
        | none =>
          have hno : ¬ ∃ r ∈ st.pending_requests, r.status = "pending" := by
            intro hex
            have := (oldestPendingIdx_isSome st.pending_requests).mpr hex
            rw [ho] at this
            simp at this
          simp [register_response, h, hf, ho, hno]
        | some jc =>
          have hyes : ∃ r ∈ st.pending_requests, r.status = "pending" := by
            apply (oldestPendingIdx_isSome st.pending_requests).mp
            rw [ho]
            rfl
          simp [register_response, h, hf, ho, hyes]
  · intro t i h hf
    refine ⟨by simp [register_response, h, hf], ?_⟩
    exact findThreadMatchIdx_pending t st.pending_requests i hf
  · intro j c hcase ho
    refine ⟨?_, oldestPendingIdx_spec st.pending_requests j c ho⟩
    rcases hcase with h | ⟨t, h, hf⟩
    · simp [register_response, h, ho]
    · simp [register_response, h, hf, ho]

/-- Witness for C2 at the concrete mismatched envelope: the amended rule
applied to stOnePending and respX completes the oldest pending request r1 in
place and reports a match. -/
theorem C2_witness :
    (register_response stOnePending respX).2.pending_requests =
      modifyAt (fun r => r.complete_with_response respX) 0
        stOnePending.pending_requests ∧
    (register_response stOnePending respX).1 = true := by
  have h := C2_register_response_amended stOnePending respX
  refine ⟨(h.2.2.2 0 0 (Or.inr ⟨"X", rfl, by decide⟩) (by decide)).1, ?_⟩
  exact h.2.1.mpr ⟨rPendY, by decide, rfl⟩

theorem modifyAt_get? {α : Type} (f : α → α) :
    ∀ (l : List α) (i0 i : Nat),
      (modifyAt f i0 l).get? i = if i = i0 then (l.get? i).map f else l.get? i := by
  intro l
  induction l with
  | nil =>
    intro i0 i
    simp only [modifyAt, List.get?_nil]
    split <;> rfl
  | cons x xs ih =>
    intro i0 i
    cases i0 with
    | zero =>
      cases i with
      | zero => simp [modifyAt]
      | succ k => simp [modifyAt]
    | succ j =>
      cases i with
      | zero => simp [modifyAt]
      | succ k =>
        simp only [modifyAt, List.get?_cons_succ, ih j k, Nat.succ_inj]

theorem mem_modifyAt {α : Type} (f : α → α) :
    ∀ (l : List α) (i : Nat) (r2 : α), r2 ∈ modifyAt f i l →
      r2 ∈ l ∨ ∃ r ∈ l, r2 = f r := by
  intro l
  induction l with
  | nil => intro i r2 h; simp [modifyAt] at h
  | cons x xs ih =>
    intro i r2 h
    cases i with
    | zero =>
      rcases List.mem_cons.mp h with rfl | h
      · exact Or.inr ⟨x, List.mem_cons_self x xs, rfl⟩
      · exact Or.inl (List.mem_cons_of_mem x h)
    | succ j =>
      rcases List.mem_cons.mp h with rfl | h
      · exact Or.inl (List.mem_cons_self _ _)
      · rcases ih j r2 h with h2 | ⟨r, hr, rfl⟩
        · exact Or.inl (List.mem_cons_of_mem x h2)
        · exact Or.inr ⟨r, List.mem_cons_of_mem x hr, rfl⟩

theorem register_response_entry (st : ResponseManager) (resp : Message)
    (i : Nat) (r : PendingRequest) (hget : st.pending_requests.get? i = some r) :
    ∃ r2, (register_response st resp).2.pending_requests.get? i = some r2 ∧
      (r2 = r ∨ (r.status = "pending" ∧ r2 = r.complete_with_response resp)) := by
  have main : ∀ i0, (∃ q, st.pending_requests.get? i0 = some q ∧ q.status = "pending") →
      (register_response st resp).2.pending_requests =
        modifyAt (fun q => q.complete_with_response resp) i0 st.pending_requests →
      ∃ r2, (register_response st resp).2.pending_requests.get? i = some r2 ∧
        (r2 = r ∨ (r.status = "pending" ∧ r2 = r.complete_with_response resp)) := by
    intro i0 ⟨q, hq, hqp⟩ heq
    rw [heq, modifyAt_get? _ st.pending_requests i0 i]
    by_cases hii : i = i0
    · subst hii
      rw [hget] at hq
      cases hq
      refine ⟨r.complete_with_response resp, ?_, Or.inr ⟨hqp, rfl⟩⟩
      rw [if_pos rfl, hget]
      rfl
    · rw [if_neg hii, hget]
      exact ⟨r, rfl, Or.inl rfl⟩
  cases h : resp.thread_id with
  | none =>
    cases ho : oldestPendingIdx st.pending_requests with
    | none =>
      refine ⟨r, ?_, Or.inl rfl⟩
      have : (register_response st resp).2.pending_requests = st.pending_requests := by
        simp [register_response, h, ho]
      rw [this, hget]
    | some jc =>
      obtain ⟨j, c⟩ := jc
      obtain ⟨q, hq, hqp, _, _⟩ := oldestPendingIdx_spec st.pending_requests j c ho
      exact main j ⟨q, hq, hqp⟩ (by simp [register_response, h, ho])
  | some t =>
    cases hf : findThreadMatchIdx t st.pending_requests with
    | some i0 =>
      obtain ⟨q, hq, _, hqp⟩ := findThreadMatchIdx_pending t st.pending_requests i0 hf
      exact main i0 ⟨q, hq, hqp⟩ (by simp [register_response, h, hf])
    | none =>
      cases ho : oldestPendingIdx st.pending_requests with
      | none =>
        refine ⟨r, ?_, Or.inl rfl⟩
        have : (register_response st resp).2.pending_requests = st.pending_requests := by
          simp [register_response, h, hf, ho]
        rw [this, hget]
      | some jc =>
        obtain ⟨j, c⟩ := jc
        obtain ⟨q, hq, hqp, _, _⟩ := oldestPendingIdx_spec st.pending_requests j c ho
        exact main j ⟨q, hq, hqp⟩ (by simp [register_response, h, hf, ho])

theorem get_response_loop_subset (st : ResponseManager) (id2 : String) :
    ∀ (fuel now : Nat),
      ∀ r2 ∈ (get_response_loop st id2 now fuel).2.pending_requests,
        r2 ∈ st.pending_requests := by
  intro fuel
  induction fuel with
  | zero => intro now r2 h; simpa [get_response_loop] using h
  | succ n ih =>
    intro now r2 h
    rw [get_response_loop] at h
    revert h
    cases hf : st.pending_requests.find? (fun r => r.request_id = id2) with
    | none => exact fun h => ih (now + 1) r2 h
    | some r =>
      by_cases h1 : r.status = "completed"
      · simp only [h1, if_true]
        intro h
        exact (List.mem_filter.mp h).1
      · by_cases h2 : r.status = "error"
        · simp only [h1, h2, if_false, if_true]
          intro h
          exact (List.mem_filter.mp h).1
        · by_cases h3 : r.is_expired now
          · simp only [h1, h2, h3, if_false, if_true]
            intro h
            exact (List.mem_filter.mp h).1
          · simp only [h1, h2, h3, if_false]
            exact fun h => ih (now + 1) r2 h

theorem cleanup_sweep_pending (st : ResponseManager) (now : Nat) :
    (cleanup_sweep st now).pending_requests =
      st.pending_requests.filter (fun r => ¬ r.is_expired now) := by
  show (cleanup_mark now st.pending_requests).filter (fun r => ¬ r.is_expired now) =
    st.pending_requests.filter (fun r => ¬ r.is_expired now)
  induction st.pending_requests with
  | nil => rfl
  | cons r rest ih =>
    by_cases h : r.is_expired now
    · have hmark : ({ r with status := "timeout" } : PendingRequest).is_expired now = true := by
        simpa [PendingRequest.is_expired] using h
      simp [cleanup_mark, List.filter, h, hmark] at ih ⊢
      simpa [cleanup_mark] using ih
    · simp [cleanup_mark, List.filter, h] at ih ⊢
      simpa [cleanup_mark] using ih

/-- Claim C8, counterexample: the cleanup sweep overwrites the status of any
expired entry with timeout regardless of its current status, so the
completed-but-uncollected request rDone transitions from the terminal status
completed to timeout; moreover a request completed by register_response stays
in the pending table rather than being removed in the same step. -/
theorem C8_counterexample_terminal_transitions :
    rDone.status = "completed" ∧ rDone.is_expired 10 = true ∧
    cleanup_mark 10 [rDone] = [{ rDone with status := "timeout" }] ∧
    (register_response stOnePending respX).2.pending_requests =
      [{ rPendY with response := some respX, status := "completed" }] := by
  decide

/-- Claim C8 as amended: under register_response and get_response a tabled
request moves only one way from pending — register_response completes exactly
the matched pending entry, get_response never rewrites a surviving entry and
deletes the retrieved or expired one in the same step — while completed or
errored requests stay in the table until retrieved; the cleanup sweep removes
exactly the expired entries, first overwriting their status with timeout
whatever it was before; and no operation ever leaves an entry with status
timeout in the table. -/
theorem C8_status_transitions_amended :
    (∀ (st : ResponseManager) (resp : Message) (i : Nat) (r : PendingRequest),
        st.pending_requests.get? i = some r →
        ∃ r2, (register_response st resp).2.pending_requests.get? i = some r2 ∧
          (r2 = r ∨ (r.status = "pending" ∧ r2 = r.complete_with_response resp))) ∧
    (∀ (st : ResponseManager) (id2 : String) (now fuel : Nat),
        ∀ r2 ∈ (get_response_loop st id2 now fuel).2.pending_requests,
          r2 ∈ st.pending_requests) ∧
    (∀ (st : ResponseManager) (now : Nat),
        (cleanup_sweep st now).pending_requests =
          st.pending_requests.filter (fun r => ¬ r.is_expired now)) ∧
    (∀ (now : Nat) (l : List PendingRequest), ∀ r ∈ l, r.is_expired now = true →
        ({ r with status := "timeout" } : PendingRequest) ∈ cleanup_mark now l) ∧
    (∀ (st : ResponseManager) (resp : Message) (id2 : String) (now fuel : Nat),
        (∀ r ∈ st.pending_requests, r.status ≠ "timeout") →
        (∀ r2 ∈ (register_response st resp).2.pending_requests,
            r2.status ≠ "timeout") ∧
        (∀ r2 ∈ (get_response_loop st id2 now fuel).2.pending_requests,
            r2.status ≠ "timeout") ∧
        (∀ r2 ∈ (cleanup_sweep st now).pending_requests,
            r2.status ≠ "timeout")) := by
  have hreg_mem : ∀ (st : ResponseManager) (resp : Message),
      ∀ r2 ∈ (register_response st resp).2.pending_requests,
        r2 ∈ st.pending_requests ∨
          ∃ r ∈ st.pending_requests, r2 = r.complete_with_response resp := by
    intro st resp r2 h2
    cases h : resp.thread_id with
    | none =>
      cases ho : oldestPendingIdx st.pending_requests with
      | none =>
        rw [show (register_response st resp).2.pending_requests = st.pending_requests
          from by simp [register_response, h, ho]] at h2
        exact Or.inl h2
      | some jc =>
        rw [show (register_response st resp).2.pending_requests =
            modifyAt (fun q => q.complete_with_response resp) jc.1 st.pending_requests
          from by simp [register_response, h, ho]] at h2
        exact mem_modifyAt _ st.pending_requests jc.1 r2 h2
    | some t =>
      cases hf : findThreadMatchIdx t st.pending_requests with
      | some i0 =>
        rw [show (register_response st resp).2.pending_requests =
            modifyAt (fun q => q.complete_with_response resp) i0 st.pending_requests
          from by simp [register_response, h, hf]] at h2
        exact mem_modifyAt _ st.pending_requests i0 r2 h2
      | none =>
        cases ho : oldestPendingIdx st.pending_requests with
        | none =>
          rw [show (register_response st resp).2.pending_requests = st.pending_requests
            from by simp [register_response, h, hf, ho]] at h2
          exact Or.inl h2
        | some jc =>
          rw [show (register_response st resp).2.pending_requests =
              modifyAt (fun q => q.complete_with_response resp) jc.1 st.pending_requests
            from by simp [register_response, h, hf, ho]] at h2
          exact mem_modifyAt _ st.pending_requests jc.1 r2 h2
  refine ⟨register_response_entry, ?_, cleanup_sweep_pending, ?_, ?_⟩
  · intro st id2 now fuel
    exact get_response_loop_subset st id2 fuel now
  · intro now l r hr hexp
    have : ({ r with status := "timeout" } : PendingRequest) =
        (fun q => if q.is_expired now then { q with status := "timeout" } else q) r := by
      simp [hexp]
    rw [cleanup_mark, this]
    exact List.mem_map_of_mem _ hr
  · intro st resp id2 now fuel hinv
    refine ⟨?_, ?_, ?_⟩
    · intro r2 h2
      rcases hreg_mem st resp r2 h2 with h2 | ⟨r, _, rfl⟩
      · exact hinv r2 h2
      · simp [PendingRequest.complete_with_response]
    · intro r2 h2
      exact hinv r2 (get_response_loop_subset st id2 fuel now r2 h2)
    · intro r2 h2
      rw [cleanup_sweep_pending] at h2
      exact hinv r2 (List.mem_filter.mp h2).1

/-- Witness for C8: the amended transition rules applied to the concrete
managers stOnePending (a pending request completed in place by a response)
and stOneDone (a completed expired request swept away by cleanup). -/
theorem C8_witness :
    (∃ r2, (register_response stOnePending respX).2.pending_requests.get? 0 = some r2 ∧
        (r2 = rPendY ∨ (rPendY.status = "pending" ∧
          r2 = rPendY.complete_with_response respX))) ∧
    (cleanup_sweep stOneDone 10).pending_requests =
      stOneDone.pending_requests.filter (fun r => ¬ r.is_expired 10) ∧
    (∀ r2 ∈ (cleanup_sweep stOneDone 10).pending_requests, r2.status ≠ "timeout") := by
  have h := C8_status_transitions_amended
  refine ⟨h.1 stOnePending respX 0 rPendY (by decide), h.2.2.1 stOneDone 10, ?_⟩
  exact (h.2.2.2.2 stOneDone respX "r2" 10 5 (by decide)).2.2

theorem receiveMsg_names (ags : List Agent) (n : String) (m : Message) :
    (receiveMsg ags n m).map (fun a => a.name) = ags.map (fun a => a.name) := by
  induction ags with
  | nil => rfl
  | cons a rest ih =>
    by_cases h : a.name = n
    · simp only [receiveMsg, List.map_cons] at ih ⊢
      rw [if_pos h]
      exact congrArg (List.cons a.name) ih
    · simp only [receiveMsg, List.map_cons] at ih ⊢
      rw [if_neg h]
      exact congrArg (List.cons a.name) ih

theorem isRegistered_receiveMsg (ags : List Agent) (n : String) (m : Message)
    (s : String) : isRegistered (receiveMsg ags n m) s = isRegistered ags s := by
  induction ags with
  | nil => rfl
  | cons a rest ih =>
    have hname : ((if a.name = n then { a with inbox := a.inbox ++ [m] } else a) :
        Agent).name = a.name := by
      by_cases h : a.name = n <;> simp [h]
    simp only [receiveMsg, List.map_cons, isRegistered, List.any_cons] at ih ⊢
    rw [hname]
    congr 1

theorem receiveMsg_of_not_registered (ags : List Agent) (n : String) (m : Message)
    (h : isRegistered ags n = false) : receiveMsg ags n m = ags := by
  induction ags with
  | nil => rfl
  | cons a rest ih =>
    simp only [isRegistered, List.any_cons, Bool.or_eq_false_iff,
      decide_eq_false_iff_not] at h
    simp only [receiveMsg, List.map_cons]
    rw [if_neg h.1]
    have := ih (by simpa [isRegistered] using h.2)
    simp only [receiveMsg] at this
    rw [this]

theorem totalInbox_receiveMsg (ags : List Agent) (n : String) (m : Message)
    (hnd : (ags.map (fun a => a.name)).Nodup) (hreg : isRegistered ags n = true) :
    totalInbox (receiveMsg ags n m) = totalInbox ags + 1 := by
  induction ags with
  | nil => simp [isRegistered] at hreg
  | cons a rest ih =>
    simp only [List.map_cons, List.nodup_cons] at hnd
    by_cases h : a.name = n
    · have hnreg : isRegistered rest n = false := by
        rw [← h]
        unfold isRegistered
        rw [List.any_eq_false]
        intro x hx
        simp only [decide_eq_true_eq]
        intro hxa
        exact hnd.1 (hxa ▸ List.mem_map_of_mem (fun a => a.name) hx)
      simp only [receiveMsg, List.map_cons]
      rw [if_pos h]
      have hrest := receiveMsg_of_not_registered rest n m hnreg
      simp only [receiveMsg] at hrest
      rw [hrest]
      simp [totalInbox]
      omega
    · simp only [isRegistered, List.any_cons, Bool.or_eq_true, decide_eq_true_eq]
        at hreg
      rcases hreg with hreg | hreg
      · exact absurd hreg h
      · simp only [receiveMsg, List.map_cons]
        rw [if_neg h]
        have := ih hnd.2 (by simpa [isRegistered] using hreg)
        simp only [receiveMsg] at this
        simp [totalInbox] at this ⊢
        omega

theorem broadcastFold_agents (m : Message) :
    ∀ (subs : List String) (agents : List Agent) (d : Bool) (k : Nat),
      subs.Nodup →
      ∀ (i : Nat) (a : Agent), agents.get? i = some a →
        (broadcastFold m subs agents d k).1.get? i =
          some (if a.name ∈ subs ∧ a.name ≠ m.sender
                then { a with inbox := a.inbox ++ [m] } else a) := by
  intro subs
  induction subs with
  | nil =>
    intro agents d k _ i a ha
    rw [broadcastFold]
    rw [if_neg (by simp : ¬ (a.name ∈ ([] : List String) ∧ a.name ≠ m.sender))]
    exact ha
  | cons s rest ih =>
    intro agents d k hnd i a ha
    have hs_not_in : s ∉ rest := (List.nodup_cons.mp hnd).1
    have hnd2 : rest.Nodup := (List.nodup_cons.mp hnd).2
    rw [broadcastFold]
    by_cases hc : isRegistered agents s = true ∧ s ≠ m.sender
    · rw [if_pos hc]
      have hget : (receiveMsg agents s m).get? i =
          some (if a.name = s then { a with inbox := a.inbox ++ [m] } else a) := by
        unfold receiveMsg
        rw [List.get?_map, ha]
        rfl
      by_cases hn : a.name = s
      · have hget2 : (receiveMsg agents s m).get? i =
            some { a with inbox := a.inbox ++ [m] } := by
          rw [hget, if_pos hn]
        rw [ih (receiveMsg agents s m) true (k + 1) hnd2 i _ hget2]
        have hno : ¬ (({ a with inbox := a.inbox ++ [m] } : Agent).name ∈ rest ∧
            ({ a with inbox := a.inbox ++ [m] } : Agent).name ≠ m.sender) := by
          intro hx
          exact hs_not_in (hn ▸ hx.1)
        rw [if_neg hno]
        have hyes : a.name ∈ s :: rest ∧ a.name ≠ m.sender :=
          ⟨by simp [hn], hn ▸ hc.2⟩
        rw [if_pos hyes]
      · have hget2 : (receiveMsg agents s m).get? i = some a := by
          rw [hget, if_neg hn]
        rw [ih (receiveMsg agents s m) true (k + 1) hnd2 i a hget2]
        have hiff : (a.name ∈ rest ∧ a.name ≠ m.sender) ↔
            (a.name ∈ s :: rest ∧ a.name ≠ m.sender) := by
          constructor
          · intro hx
            exact ⟨List.mem_cons_of_mem s hx.1, hx.2⟩
          · intro hx
            rcases List.mem_cons.mp hx.1 with h1 | h1
            · exact absurd h1 hn
            · exact ⟨h1, hx.2⟩
        by_cases hmem : a.name ∈ rest ∧ a.name ≠ m.sender
        · rw [if_pos hmem, if_pos (hiff.mp hmem)]
        · rw [if_neg hmem, if_neg (fun hx => hmem (hiff.mpr hx))]
    · rw [if_neg hc]
      rw [ih agents d k hnd2 i a ha]
      by_cases hn : a.name = s
      · have hreg : isRegistered agents s = true := by
          unfold isRegistered
          rw [List.any_eq_true]
          exact ⟨a, List.get?_mem ha, by simp [hn]⟩
        have hsend : s = m.sender := by
          by_contra hne
          exact hc ⟨hreg, hne⟩
        have h1 : ¬ (a.name ∈ rest ∧ a.name ≠ m.sender) := fun hx =>
          hx.2 (hn.trans hsend)
        have h2 : ¬ (a.name ∈ s :: rest ∧ a.name ≠ m.sender) := fun hx =>
          hx.2 (hn.trans hsend)
        rw [if_neg h1, if_neg h2]
      · have hiff : (a.name ∈ rest ∧ a.name ≠ m.sender) ↔
            (a.name ∈ s :: rest ∧ a.name ≠ m.sender) := by
          constructor
          · intro hx
            exact ⟨List.mem_cons_of_mem s hx.1, hx.2⟩
          · intro hx
            rcases List.mem_cons.mp hx.1 with h1 | h1
            · exact absurd h1 hn
            · exact ⟨h1, hx.2⟩
        by_cases hmem : a.name ∈ rest ∧ a.name ≠ m.sender
        · rw [if_pos hmem, if_pos (hiff.mp hmem)]
        · rw [if_neg hmem, if_neg (fun hx => hmem (hiff.mpr hx))]

theorem broadcastFold_stats (m : Message) :
    ∀ (subs : List String) (agents : List Agent) (d : Bool) (k : Nat),
      (broadcastFold m subs agents d k).2.1 =
        (d || subs.any (fun s => isRegistered agents s && decide (s ≠ m.sender))) ∧
      (broadcastFold m subs agents d k).2.2 =
        k + (subs.filter
          (fun s => isRegistered agents s && decide (s ≠ m.sender))).length := by
  intro subs
  induction subs with
  | nil =>
    intro agents d k
    simp [broadcastFold]
  | cons s rest ih =>
    intro agents d k
    rw [broadcastFold]
    by_cases hc : isRegistered agents s = true ∧ s ≠ m.sender
    · rw [if_pos hc]
      have hfun : (fun x => isRegistered (receiveMsg agents s m) x && decide (x ≠ m.sender)) =
          (fun x => isRegistered agents x && decide (x ≠ m.sender)) := by
        funext x
        rw [isRegistered_receiveMsg]
      obtain ⟨ihflag, ihcount⟩ := ih (receiveMsg agents s m) true (k + 1)
      rw [hfun] at ihflag ihcount
      refine ⟨?_, ?_⟩
      · rw [ihflag]
        simp [List.any_cons, hc.1, hc.2]
      · rw [ihcount]
        simp [List.filter_cons, hc.1, hc.2]
        omega
    · rw [if_neg hc]
      obtain ⟨ihflag, ihcount⟩ := ih agents d k
      by_cases hreg : isRegistered agents s = true
      · have hsend : s = m.sender := by
          by_contra hne
          exact hc ⟨hreg, hne⟩
        subst hsend
        refine ⟨?_, ?_⟩
        · rw [ihflag]
          simp [List.any_cons]
        · rw [ihcount]
          simp [List.filter_cons]
      · have hregf : isRegistered agents s = false := Bool.eq_false_iff.mpr hreg
        refine ⟨?_, ?_⟩
        · rw [ihflag]
          simp [List.any_cons, hregf]
        · rw [ihcount]
          simp [List.filter_cons, hregf]

theorem broadcastFold_totalInbox (m : Message) :
    ∀ (subs : List String) (agents : List Agent) (d : Bool) (k : Nat),
      (agents.map (fun a => a.name)).Nodup →
      totalInbox (broadcastFold m subs agents d k).1 + k =
        totalInbox agents + (broadcastFold m subs agents d k).2.2 := by
  intro subs
  induction subs with
  | nil =>
    intro agents d k _
    simp [broadcastFold]
  | cons s rest ih =>
    intro agents d k hnd
    rw [broadcastFold]
    by_cases hc : isRegistered agents s = true ∧ s ≠ m.sender
    · rw [if_pos hc]
      have hnd2 : ((receiveMsg agents s m).map (fun a => a.name)).Nodup := by
        rw [receiveMsg_names]
        exact hnd
      have hstep := totalInbox_receiveMsg agents s m hnd hc.1
      have := ih (receiveMsg agents s m) true (k + 1) hnd2
      omega
    · rw [if_neg hc]
      exact ih agents d k hnd

theorem MessageBus_deliver_agents (bus : BusState) (m : Message)
    (hrec : m.recipient = none) :
    (MessageBus.deliver_message bus m).agents =
      (broadcastFold m (subsFor bus m.type) bus.agents false 0).1 := by
  unfold MessageBus.deliver_message
  rw [hrec]
  dsimp only
  split <;> rfl

theorem MessageBusSync_deliver_agents (bus : BusState) (m : Message)
    (hrec : m.recipient = none) :
    (MessageBusSync.deliver_message bus m).agents =
      (broadcastFold m (subsFor bus m.type) bus.agents false 0).1 := by
  unfold MessageBusSync.deliver_message
  rw [hrec]

theorem MessageBus_deliver_stats (bus : BusState) (m : Message)
    (hrec : m.recipient = none) :
    (MessageBus.deliver_message bus m).messages_delivered =
      bus.messages_delivered +
        (if (broadcastFold m (subsFor bus m.type) bus.agents false 0).2.1 = true
         then (subsFor bus m.type).length else 0) := by
  unfold MessageBus.deliver_message
  rw [hrec]
  dsimp only
  split <;> rfl

/-- Claim C3: a broadcast envelope (no recipient) lands in the inbox of
exactly the registered agents subscribed to its type other than the sender —
each such agent receives precisely one copy appended to its inbox, every
other agent keeps its inbox unchanged, and the sender never receives its own
broadcast — in both the queued bus and the synchronous bus. -/
theorem C3_broadcast_delivers_exactly_subscribers (bus : BusState) (m : Message)
    (hrec : m.recipient = none) (hnd : (subsFor bus m.type).Nodup) :
    ∀ (i : Nat) (a : Agent), bus.agents.get? i = some a →
      (MessageBus.deliver_message bus m).agents.get? i =
        some (if a.name ∈ subsFor bus m.type ∧ a.name ≠ m.sender
              then { a with inbox := a.inbox ++ [m] } else a) ∧
      (MessageBusSync.deliver_message bus m).agents.get? i =
        some (if a.name ∈ subsFor bus m.type ∧ a.name ≠ m.sender
              then { a with inbox := a.inbox ++ [m] } else a) := by
  intro i a ha
  rw [MessageBus_deliver_agents bus m hrec, MessageBusSync_deliver_agents bus m hrec]
  have h := broadcastFold_agents m (subsFor bus m.type) bus.agents false 0 hnd i a ha
  exact ⟨h, h⟩

/-- Witness for C3 on the concrete bus: the NEWS broadcast from A reaches the
subscribed agent B exactly once, does not echo back to the sender A, and the
synchronous bus behaves identically. -/
theorem C3_witness :
    (MessageBus.deliver_message busAB mNews).agents.get? 1 =
      some { name := "B", inbox := [mNews] } ∧
    (MessageBus.deliver_message busAB mNews).agents.get? 0 =
      some { name := "A", inbox := [] } ∧
    (MessageBusSync.deliver_message busAB mNews).agents.get? 1 =
      some { name := "B", inbox := [mNews] } := by
  have hB := C3_broadcast_delivers_exactly_subscribers busAB mNews rfl (by decide)
    1 { name := "B", inbox := [] } rfl
  have hA := C3_broadcast_delivers_exactly_subscribers busAB mNews rfl (by decide)
    0 { name := "A", inbox := [] } rfl
  rw [if_pos (by decide)] at hB
  rw [if_neg (by decide)] at hA
  exact ⟨hB.1, hA.1, hB.2⟩

/-- Claim C10: when a broadcast on the queued bus reaches at least one
eligible subscriber, messages_delivered grows by the length of the whole
subscriber set for that type (sender and unregistered names included), while
the number of copies actually placed in inboxes is only the number of
eligible subscribers, which never exceeds the set size; with no eligible
subscriber messages_delivered does not change. -/
theorem C10_messages_delivered_overcount (bus : BusState) (m : Message)
    (hrec : m.recipient = none)
    (hndag : (bus.agents.map (fun a => a.name)).Nodup) :
    ((MessageBus.deliver_message bus m).messages_delivered =
        bus.messages_delivered +
          (if (subsFor bus m.type).any
              (fun s => isRegistered bus.agents s && decide (s ≠ m.sender)) = true
           then (subsFor bus m.type).length else 0)) ∧
    (totalInbox (MessageBus.deliver_message bus m).agents =
        totalInbox bus.agents +
          ((subsFor bus m.type).filter
            (fun s => isRegistered bus.agents s && decide (s ≠ m.sender))).length) ∧
    ((subsFor bus m.type).filter
        (fun s => isRegistered bus.agents s && decide (s ≠ m.sender))).length ≤
      (subsFor bus m.type).length := by
  obtain ⟨hflag, hcount⟩ := broadcastFold_stats m (subsFor bus m.type) bus.agents false 0
  refine ⟨?_, ?_, List.length_filter_le _ _⟩
  · rw [MessageBus_deliver_stats bus m hrec, hflag]
    simp
  · rw [MessageBus_deliver_agents bus m hrec]
    have htot := broadcastFold_totalInbox m (subsFor bus m.type) bus.agents false 0 hndag
    rw [hcount] at htot
    omega

/-- Witness for C10 on the concrete bus: the subscriber set of NEWS has three
names (the sender A, the registered B and the unregistered Ghost), so one
delivered broadcast bumps messages_delivered by 3 while only one copy lands
in an inbox. -/
theorem C10_witness :
    (MessageBus.deliver_message busAB mNews).messages_delivered = 3 ∧
    totalInbox (MessageBus.deliver_message busAB mNews).agents = 1 := by
  have h := C10_messages_delivered_overcount busAB mNews rfl (by decide)
  constructor
  · rw [h.1]
    decide
  · rw [h.2.1]
    decide

theorem foldl_minByCount_spec :
    ∀ (xs : List (String × Nat)) (x : String × Nat),
      ((xs.foldl (fun best y => if y.2 < best.2 then y else best) x) = x ∨
        (xs.foldl (fun best y => if y.2 < best.2 then y else best) x) ∈ xs) ∧
      (xs.foldl (fun best y => if y.2 < best.2 then y else best) x).2 ≤ x.2 ∧
      (∀ q ∈ xs, (xs.foldl (fun best y => if y.2 < best.2 then y else best) x).2 ≤ q.2) := by
  intro xs
  induction xs with
  | nil =>
    intro x
    simp
  | cons y ys ih =>
    intro x
    simp only [List.foldl_cons]
    by_cases h : y.2 < x.2
    · rw [if_pos h]
      obtain ⟨hmem, hle, hall⟩ := ih y
      refine ⟨?_, le_trans hle (le_of_lt h), ?_⟩
      · rcases hmem with h2 | h2
        · exact Or.inr (by rw [h2]; exact List.mem_cons_self y ys)
        · exact Or.inr (List.mem_cons_of_mem y h2)
      · intro q hq
        rcases List.mem_cons.mp hq with rfl | hq
        · exact hle
        · exact hall q hq
    · rw [if_neg h]
      obtain ⟨hmem, hle, hall⟩ := ih x
      refine ⟨?_, hle, ?_⟩
      · rcases hmem with h2 | h2
        · exact Or.inl h2
        · exact Or.inr (List.mem_cons_of_mem y h2)
      · intro q hq
        rcases List.mem_cons.mp hq with rfl | hq
        · exact le_trans hle (Nat.le_of_not_lt h)
        · exact hall q hq

theorem pythonMinByCount_min (tallies : List (String × Nat)) (et : String × Nat)
    (h : pythonMinByCount tallies = some et) :
    et ∈ tallies ∧ ∀ q ∈ tallies, et.2 ≤ q.2 := by
  cases tallies with
  | nil => simp [pythonMinByCount] at h
  | cons x xs =>
    rw [pythonMinByCount] at h
    cases h
    obtain ⟨hmem, hle, hall⟩ := foldl_minByCount_spec xs x
    refine ⟨?_, ?_⟩
    · rcases hmem with h2 | h2
      · rw [h2]
        exact List.mem_cons_self x xs
      · exact List.mem_cons_of_mem x h2
    · intro q hq
      rcases List.mem_cons.mp hq with rfl | hq
      · exact hle
      · exact hall q hq

theorem findMajority_eq_nat (tallies : List (String × Nat)) (total : Nat) :
    findMajority tallies total = tallies.find? (fun kc => total < 2 * kc.2) := by
  unfold findMajority
  have hfun : (fun (kc : String × Nat) => decide ((total : ℚ) / 2 < (kc.2 : ℚ))) =
      (fun (kc : String × Nat) => decide (total < 2 * kc.2)) := by
    funext kc
    have hiff : ((total : ℚ) / 2 < (kc.2 : ℚ)) ↔ (total < 2 * kc.2) := by
      rw [div_lt_iff (by norm_num : (0 : ℚ) < 2), mul_comm]
      exact_mod_cast Iff.rfl
    simp [hiff]
  rw [hfun]

theorem rankedLoop_majority_exit (votes : List (String × List String))
    (fuel : Nat) (candidates : List String) (rn : Nat)
    (elims : List (Nat × String × Nat)) (ct : String × Nat)
    (hlen : candidates.length > 1)
    (htot : ((tallyFirstChoices candidates votes).map (·.2)).sum ≠ 0)
    (hmaj : findMajority (tallyFirstChoices candidates votes)
        ((tallyFirstChoices candidates votes).map (·.2)).sum = some ct) :
    rankedLoop votes (fuel + 1) candidates rn elims =
      { winner := some ct.1, final_round := rn,
        percentage := some ((ct.2 : ℚ) /
          ((((tallyFirstChoices candidates votes).map (·.2)).sum : Nat) : ℚ) * 100),
        elimination_rounds := elims } := by
  rw [rankedLoop]
  rw [if_pos hlen]
  dsimp only
  rw [if_neg htot, hmaj]

theorem rankedLoop_elim_step (votes : List (String × List String))
    (fuel : Nat) (candidates : List String) (rn : Nat)
    (elims : List (Nat × String × Nat)) (et : String × Nat)
    (hlen : candidates.length > 1)
    (htot : ((tallyFirstChoices candidates votes).map (·.2)).sum ≠ 0)
    (hmaj : findMajority (tallyFirstChoices candidates votes)
        ((tallyFirstChoices candidates votes).map (·.2)).sum = none)
    (hmin : pythonMinByCount (tallyFirstChoices candidates votes) = some et) :
    rankedLoop votes (fuel + 1) candidates rn elims =
      rankedLoop votes fuel (candidates.erase et.1) (rn + 1)
        (elims ++ [(rn, et.1, et.2)]) := by
  rw [rankedLoop]
  rw [if_pos hlen]
  dsimp only
  rw [if_neg htot, hmaj, hmin]

/-- Claim C7: ranked_choice_vote tallies each voter by their highest-ranked
option still in contention; an option whose tally strictly exceeds half the
ballots counted that round wins immediately with that round number and
percentage; otherwise an option with the fewest tallies is eliminated and
recorded as (round, option, tally); a single remaining candidate wins, and a
round counting zero ballots ends with no winner; on the ballots
[[A,B,C],[B,A,C],[C,B,A]] the minimum-tally option A is eliminated in round
one and B then wins round two with a strict majority of 200/3 percent. -/
theorem C7_ranked_choice_characterization :
    (∀ (votes : List (String × List String)) (fuel : Nat)
        (candidates : List String) (rn : Nat)
        (elims : List (Nat × String × Nat)) (ct : String × Nat),
        candidates.length > 1 →
        ((tallyFirstChoices candidates votes).map (·.2)).sum ≠ 0 →
        findMajority (tallyFirstChoices candidates votes)
            ((tallyFirstChoices candidates votes).map (·.2)).sum = some ct →
        rankedLoop votes (fuel + 1) candidates rn elims =
          { winner := some ct.1, final_round := rn,
            percentage := some ((ct.2 : ℚ) /
              ((((tallyFirstChoices candidates votes).map (·.2)).sum : Nat) : ℚ) * 100),
            elimination_rounds := elims } ∧
        ((((tallyFirstChoices candidates votes).map (·.2)).sum : Nat) : ℚ) / 2 <
          (ct.2 : ℚ)) ∧
    (∀ (votes : List (String × List String)) (fuel : Nat)
        (candidates : List String) (rn : Nat)
        (elims : List (Nat × String × Nat)) (et : String × Nat),
        candidates.length > 1 →
        ((tallyFirstChoices candidates votes).map (·.2)).sum ≠ 0 →
        findMajority (tallyFirstChoices candidates votes)
            ((tallyFirstChoices candidates votes).map (·.2)).sum = none →
        pythonMinByCount (tallyFirstChoices candidates votes) = some et →
        rankedLoop votes (fuel + 1) candidates rn elims =
          rankedLoop votes fuel (candidates.erase et.1) (rn + 1)
            (elims ++ [(rn, et.1, et.2)]) ∧
        et ∈ tallyFirstChoices candidates votes ∧
        (∀ q ∈ tallyFirstChoices candidates votes, et.2 ≤ q.2)) ∧
    (∀ (votes : List (String × List String)) (fuel : Nat) (c : String)
        (rn : Nat) (elims : List (Nat × String × Nat)),
        (rankedLoop votes fuel [c] rn elims).winner = some c) ∧
    (∀ (votes : List (String × List String)) (fuel : Nat)
        (candidates : List String) (rn : Nat)
        (elims : List (Nat × String × Nat)),
        candidates.length > 1 →
        ((tallyFirstChoices candidates votes).map (·.2)).sum = 0 →
        (rankedLoop votes (fuel + 1) candidates rn elims).winner = none) ∧
    ranked_choice_vote ["A", "B", "C"]
        [("v1", ["A", "B", "C"]), ("v2", ["B", "A", "C"]), ("v3", ["C", "B", "A"])] =
      { winner := some "B", final_round := 2, percentage := some (200 / 3),
        elimination_rounds := [(1, "A", 1)] } := by
  refine ⟨?_, ?_, ?_, ?_, ?_⟩
  · intro votes fuel candidates rn elims ct hlen htot hmaj
    refine ⟨rankedLoop_majority_exit votes fuel candidates rn elims ct hlen htot hmaj, ?_⟩
    have := List.find?_some hmaj
    simpa using this
  · intro votes fuel candidates rn elims et hlen htot hmaj hmin
    exact ⟨rankedLoop_elim_step votes fuel candidates rn elims et hlen htot hmaj hmin,
      (pythonMinByCount_min _ et hmin).1, (pythonMinByCount_min _ et hmin).2⟩
  · intro votes fuel c rn elims
    cases fuel with
    | zero => simp [rankedLoop]
    | succ n =>
      rw [rankedLoop]
      rw [if_neg (by simp)]
      simp
  · intro votes fuel candidates rn elims hlen htot
    rw [rankedLoop]
    rw [if_pos hlen]
    dsimp only
    rw [if_pos htot]
  · have step1 := rankedLoop_elim_step
      [("v1", ["A", "B", "C"]), ("v2", ["B", "A", "C"]), ("v3", ["C", "B", "A"])]
      3 ["A", "B", "C"] 1 [] ("A", 1) (by decide) (by decide)
      (by rw [findMajority_eq_nat]; decide) (by decide)
    have step2 := rankedLoop_majority_exit
      [("v1", ["A", "B", "C"]), ("v2", ["B", "A", "C"]), ("v3", ["C", "B", "A"])]
      2 ["B", "C"] 2 [(1, "A", 1)] ("B", 2) (by decide) (by decide)
      (by rw [findMajority_eq_nat]; decide)
    have htot3 : ((tallyFirstChoices ["B", "C"]
        [("v1", ["A", "B", "C"]), ("v2", ["B", "A", "C"]), ("v3", ["C", "B", "A"])]).map
          (·.2)).sum = 3 := by decide
    rw [htot3] at step2
    calc ranked_choice_vote ["A", "B", "C"]
          [("v1", ["A", "B", "C"]), ("v2", ["B", "A", "C"]), ("v3", ["C", "B", "A"])]
        = rankedLoop
            [("v1", ["A", "B", "C"]), ("v2", ["B", "A", "C"]), ("v3", ["C", "B", "A"])]
            4 ["A", "B", "C"] 1 [] := rfl
      _ = rankedLoop
            [("v1", ["A", "B", "C"]), ("v2", ["B", "A", "C"]), ("v3", ["C", "B", "A"])]
            3 ["B", "C"] 2 [(1, "A", 1)] := step1
      _ = { winner := some "B", final_round := 2, percentage := some (200 / 3),
            elimination_rounds := [(1, "A", 1)] } := by
          rw [step2]
          norm_num [RankedResult.mk.injEq]

/-- Witness for C7: the characterization applied at the concrete second round
of the three-ballot election and at a single remaining candidate. -/
theorem C7_witness :
    rankedLoop [("v1", ["A", "B", "C"]), ("v2", ["B", "A", "C"]), ("v3", ["C", "B", "A"])]
        3 ["B", "C"] 2 [(1, "A", 1)] =
      { winner := some "B", final_round := 2, percentage := some (200 / 3),
        elimination_rounds := [(1, "A", 1)] } ∧
    (rankedLoop [] 5 ["X"] 1 []).winner = some "X" := by
  have h := C7_ranked_choice_characterization
  constructor
  · have h2 := (h.1 [("v1", ["A", "B", "C"]), ("v2", ["B", "A", "C"]), ("v3", ["C", "B", "A"])]
      2 ["B", "C"] 2 [(1, "A", 1)] ("B", 2) (by decide) (by decide)
      (by rw [findMajority_eq_nat]; decide)).1
    have htot3 : ((tallyFirstChoices ["B", "C"]
        [("v1", ["A", "B", "C"]), ("v2", ["B", "A", "C"]), ("v3", ["C", "B", "A"])]).map
          (·.2)).sum = 3 := by decide
    rw [htot3] at h2
    rw [h2]
    norm_num [RankedResult.mk.injEq]
  · exact h.2.2.1 [] 5 "X" 1 []

theorem meanOf_bounds (scores : List ℝ) (hne : scores ≠ [])
    (hb : ∀ s ∈ scores, 0 ≤ s ∧ s ≤ 1) :
    0 ≤ meanOf scores ∧ meanOf scores ≤ 1 := by
  have hlen : 0 < (scores.length : ℝ) := by
    have : 0 < scores.length := List.length_pos.mpr hne
    exact_mod_cast this
  unfold meanOf
  constructor
  · apply div_nonneg _ (le_of_lt hlen)
    apply List.sum_nonneg
    intro s hs
    exact (hb s hs).1
  · rw [div_le_one hlen]
    calc scores.sum ≤ scores.length • (1 : ℝ) :=
          List.sum_le_card_nsmul scores 1 (fun s hs => (hb s hs).2)
      _ = (scores.length : ℝ) := by simp

theorem pvarOf_nonneg (scores : List ℝ) : 0 ≤ pvarOf scores := by
  unfold pvarOf
  apply div_nonneg
  · apply List.sum_nonneg
    intro x hx
    obtain ⟨s, _, rfl⟩ := List.mem_map.mp hx
    exact sq_nonneg _
  · exact Nat.cast_nonneg _

theorem pvarOf_le_one (scores : List ℝ) (hne : scores ≠ [])
    (hb : ∀ s ∈ scores, 0 ≤ s ∧ s ≤ 1) : pvarOf scores ≤ 1 := by
  have hm := meanOf_bounds scores hne hb
  have hlen : 0 < (scores.length : ℝ) := by
    have : 0 < scores.length := List.length_pos.mpr hne
    exact_mod_cast this
  unfold pvarOf
  rw [div_le_one hlen]
  have hbd : ∀ x ∈ scores.map (fun s => (s - meanOf scores) ^ 2), x ≤ 1 := by
    intro x hx
    obtain ⟨s, hs, rfl⟩ := List.mem_map.mp hx
    have hsb := hb s hs
    nlinarith [hm.1, hm.2, hsb.1, hsb.2]
  calc (scores.map (fun s => (s - meanOf scores) ^ 2)).sum
      ≤ (scores.map (fun s => (s - meanOf scores) ^ 2)).length • (1 : ℝ) :=
        List.sum_le_card_nsmul _ 1 hbd
    _ = (scores.length : ℝ) := by simp

theorem specConsensusLevel_eq (scores : List ℝ) (hne : scores ≠ [])
    (hb : ∀ s ∈ scores, 0 ≤ s ∧ s ≤ 1) :
    specConsensusLevel scores = 1 - Real.sqrt (pvarOf scores) := by
  unfold specConsensusLevel
  apply max_eq_right
  have h1 : Real.sqrt (pvarOf scores) ≤ 1 :=
    Real.sqrt_le_one.mpr (pvarOf_le_one scores hne hb)
  linarith

theorem consensusResults_eq_spec (collected : List (String × List ℝ))
    (hb : ∀ p ∈ collected, ∀ s ∈ p.2, 0 ≤ s ∧ s ≤ 1) :
    consensusResults collected = specConsensusResults collected := by
  induction collected with
  | nil => rfl
  | cons p rest ih =>
    have hbp : ∀ s ∈ p.2, 0 ≤ s ∧ s ≤ 1 :=
      fun s hs => hb p (List.mem_cons_self p rest) s hs
    have hbr : ∀ q ∈ rest, ∀ s ∈ q.2, 0 ≤ s ∧ s ≤ 1 :=
      fun q hq => hb q (List.mem_cons_of_mem p hq)
    unfold consensusResults specConsensusResults
    simp only [List.filterMap_cons]
    by_cases hp : p.2 = []
    · simp only [hp, if_true]
      exact ih hbr
    · have hlev := specConsensusLevel_eq p.2 hp hbp
      simp only [hp, if_false, hlev]
      have htail := ih hbr
      unfold consensusResults specConsensusResults at htail
      rw [htail]

theorem addScore_bounds (acc : List (String × List ℝ)) (o : String) (s : ℝ)
    (hacc : ∀ p ∈ acc, ∀ x ∈ p.2, 0 ≤ x ∧ x ≤ 1) (hs : 0 ≤ s ∧ s ≤ 1) :
    ∀ p ∈ addScore acc o s, ∀ x ∈ p.2, 0 ≤ x ∧ x ≤ 1 := by
  intro p hp x hx
  unfold addScore at hp
  by_cases h : acc.any (fun q => q.1 = o)
  · rw [if_pos h] at hp
    obtain ⟨q, hq, hfq⟩ := List.mem_map.mp hp
    by_cases hqo : q.1 = o
    · rw [if_pos hqo] at hfq
      subst hfq
      rcases List.mem_append.mp hx with hx | hx
      · exact hacc q hq x hx
      · rw [List.mem_singleton.mp hx]
        exact hs
    · rw [if_neg hqo] at hfq
      subst hfq
      exact hacc q hq x hx
  · rw [if_neg h] at hp
    rcases List.mem_append.mp hp with hp | hp
    · exact hacc p hp x hx
    · rw [List.mem_singleton.mp hp] at hx
      rw [List.mem_singleton.mp hx]
      exact hs

theorem collect_inner_bounds (options : List String) :
    ∀ (scores : List (String × ℝ)) (acc : List (String × List ℝ)),
      (∀ p ∈ acc, ∀ x ∈ p.2, 0 ≤ x ∧ x ≤ 1) →
      (∀ os ∈ scores, 0 ≤ os.2 ∧ os.2 ≤ 1) →
      ∀ p ∈ scores.foldl
          (fun acc2 os => if options.contains os.1 then addScore acc2 os.1 os.2 else acc2)
          acc,
        ∀ x ∈ p.2, 0 ≤ x ∧ x ≤ 1 := by
  intro scores
  induction scores with
  | nil =>
    intro acc hacc _ p hp
    exact hacc p hp
  | cons os rest ih =>
    intro acc hacc hsc
    simp only [List.foldl_cons]
    apply ih
    · by_cases h : options.contains os.1
      · rw [if_pos h]
        exact addScore_bounds acc os.1 os.2 hacc (hsc os (List.mem_cons_self _ _))
      · rw [if_neg h]
        exact hacc
    · intro q hq
      exact hsc q (List.mem_cons_of_mem _ hq)

theorem collectScores_bounds (options : List String)
    (votes : List (String × List (String × ℝ)))
    (hb : ∀ v ∈ votes, ∀ os ∈ v.2, 0 ≤ os.2 ∧ os.2 ≤ 1) :
    ∀ p ∈ collectScores options votes, ∀ x ∈ p.2, 0 ≤ x ∧ x ≤ 1 := by
  unfold collectScores
  suffices h : ∀ (vs : List (String × List (String × ℝ)))
      (acc : List (String × List ℝ)),
      (∀ p ∈ acc, ∀ x ∈ p.2, 0 ≤ x ∧ x ≤ 1) →
      (∀ v ∈ vs, ∀ os ∈ v.2, 0 ≤ os.2 ∧ os.2 ≤ 1) →
      ∀ p ∈ vs.foldl
          (fun acc v => v.2.foldl
            (fun acc2 os => if options.contains os.1 then addScore acc2 os.1 os.2 else acc2)
            acc)
          acc,
        ∀ x ∈ p.2, 0 ≤ x ∧ x ≤ 1 by
    exact h votes [] (by simp) hb
  intro vs
  induction vs with
  | nil =>
    intro acc hacc _ p hp
    exact hacc p hp
  | cons v rest ih =>
    intro acc hacc hvs
    simp only [List.foldl_cons]
    apply ih
    · exact collect_inner_bounds options v.2 acc hacc
        (fun os hos => hvs v (List.mem_cons_self _ _) os hos)
    · intro q hq
      exact hvs q (List.mem_cons_of_mem _ hq)

theorem addScore_keys (acc : List (String × List ℝ)) (o : String) (s : ℝ) :
    (addScore acc o s).map (fun p => p.1) =
      if acc.any (fun q => q.1 = o) then acc.map (fun p => p.1)
      else acc.map (fun p => p.1) ++ [o] := by
  unfold addScore
  by_cases h : acc.any (fun q => q.1 = o)
  · rw [if_pos h, if_pos h, List.map_map]
    apply List.map_congr_left
    intro q _
    by_cases hqo : q.1 = o
    · simp [hqo]
    · simp [hqo]
  · rw [if_neg h, if_neg h, List.map_append]
    rfl

theorem addScore_keys_nodup (acc : List (String × List ℝ)) (o : String) (s : ℝ)
    (h : (acc.map (fun p => p.1)).Nodup) :
    ((addScore acc o s).map (fun p => p.1)).Nodup := by
  rw [addScore_keys]
  by_cases hany : acc.any (fun q => q.1 = o)
  · rw [if_pos hany]
    exact h
  · rw [if_neg hany]
    have ho : o ∉ acc.map (fun p => p.1) := by
      intro hmem
      obtain ⟨q, hq, hq1⟩ := List.mem_map.mp hmem
      apply hany
      rw [List.any_eq_true]
      exact ⟨q, hq, by simp [hq1]⟩
    exact List.nodup_append.mpr ⟨h, List.nodup_singleton o,
      fun a ha hb => ho ((List.mem_singleton.mp hb) ▸ ha)⟩

theorem addScore_keys_mem (acc : List (String × List ℝ)) (o : String) (s : ℝ) :
    ∀ k ∈ (addScore acc o s).map (fun p => p.1),
      k ∈ acc.map (fun p => p.1) ∨ k = o := by
  intro k hk
  rw [addScore_keys] at hk
  by_cases hany : acc.any (fun q => q.1 = o)
  · rw [if_pos hany] at hk
    exact Or.inl hk
  · rw [if_neg hany] at hk
    rcases List.mem_append.mp hk with hk | hk
    · exact Or.inl hk
    · exact Or.inr (List.mem_singleton.mp hk)

theorem collect_inner_keys (options : List String) :
    ∀ (scores : List (String × ℝ)) (acc : List (String × List ℝ)),
      (acc.map (fun p => p.1)).Nodup →
      (∀ k ∈ acc.map (fun p => p.1), k ∈ options) →
      (((scores.foldl
          (fun acc2 os => if options.contains os.1 then addScore acc2 os.1 os.2 else acc2)
          acc).map (fun p => p.1)).Nodup ∧
        ∀ k ∈ (scores.foldl
          (fun acc2 os => if options.contains os.1 then addScore acc2 os.1 os.2 else acc2)
          acc).map (fun p => p.1), k ∈ options) := by
  intro scores
  induction scores with
  | nil =>
    intro acc hnd hmem
    exact ⟨hnd, hmem⟩
  | cons os rest ih =>
    intro acc hnd hmem
    simp only [List.foldl_cons]
    by_cases h : options.contains os.1
    · rw [if_pos h]
      apply ih
      · exact addScore_keys_nodup acc os.1 os.2 hnd
      · intro k hk
        rcases addScore_keys_mem acc os.1 os.2 k hk with hk | rfl
        · exact hmem k hk
        · simpa using h
    · rw [if_neg h]
      exact ih acc hnd hmem

theorem collectScores_keys (options : List String)
    (votes : List (String × List (String × ℝ))) :
    ((collectScores options votes).map (fun p => p.1)).Nodup ∧
      ∀ k ∈ (collectScores options votes).map (fun p => p.1), k ∈ options := by
  unfold collectScores
  suffices h : ∀ (vs : List (String × List (String × ℝ)))
      (acc : List (String × List ℝ)),
      (acc.map (fun p => p.1)).Nodup →
      (∀ k ∈ acc.map (fun p => p.1), k ∈ options) →
      (((vs.foldl (fun acc v => v.2.foldl
          (fun acc2 os => if options.contains os.1 then addScore acc2 os.1 os.2 else acc2)
          acc) acc).map (fun p => p.1)).Nodup ∧
        ∀ k ∈ (vs.foldl (fun acc v => v.2.foldl
          (fun acc2 os => if options.contains os.1 then addScore acc2 os.1 os.2 else acc2)
          acc) acc).map (fun p => p.1), k ∈ options) by
    exact h votes [] (by simp) (by simp)
  intro vs
  induction vs with
  | nil =>
    intro acc hnd hmem
    exact ⟨hnd, hmem⟩
  | cons v rest ih =>
    intro acc hnd hmem
    simp only [List.foldl_cons]
    obtain ⟨hnd2, hmem2⟩ := collect_inner_keys options v.2 acc hnd hmem
    exact ih _ hnd2 hmem2

theorem consensusResults_keys_sublist (collected : List (String × List ℝ)) :
    ((consensusResults collected).map (fun p => p.1)).Sublist
      (collected.map (fun p => p.1)) := by
  induction collected with
  | nil => simp [consensusResults]
  | cons p rest ih =>
    unfold consensusResults at ih ⊢
    simp only [List.filterMap_cons]
    by_cases hp : p.2 = []
    · simp only [hp, if_true, List.map_cons]
      exact ih.cons p.1
    · simp only [hp, if_false, List.map_cons]
      exact ih.cons₂ p.1

theorem collect_inner_filter (options : List String) :
    ∀ (scores : List (String × ℝ)) (acc : List (String × List ℝ)),
      scores.foldl
        (fun acc2 os => if options.contains os.1 then addScore acc2 os.1 os.2 else acc2)
        acc =
      (scores.filter (fun os => options.contains os.1)).foldl
        (fun acc2 os => if options.contains os.1 then addScore acc2 os.1 os.2 else acc2)
        acc := by
  intro scores
  induction scores with
  | nil => intro acc; rfl
  | cons os rest ih =>
    intro acc
    rw [List.foldl_cons, List.filter_cons]
    by_cases h : options.contains os.1
    · rw [if_pos h]
      simp only [h, if_true, List.foldl_cons]
      exact ih _
    · rw [if_neg h]
      simp only [h, if_false]
      exact ih acc

theorem collectScores_filter (options : List String)
    (votes : List (String × List (String × ℝ))) :
    collectScores options votes =
      collectScores options
        (votes.map (fun v => (v.1, v.2.filter (fun os => options.contains os.1)))) := by
  unfold collectScores
  suffices h : ∀ (vs : List (String × List (String × ℝ)))
      (acc : List (String × List ℝ)),
      vs.foldl (fun acc v => v.2.foldl
        (fun acc2 os => if options.contains os.1 then addScore acc2 os.1 os.2 else acc2)
        acc) acc =
      (vs.map (fun v => (v.1, v.2.filter (fun os => options.contains os.1)))).foldl
        (fun acc v => v.2.foldl
          (fun acc2 os => if options.contains os.1 then addScore acc2 os.1 os.2 else acc2)
          acc) acc by
    exact h votes []
  intro vs
  induction vs with
  | nil => intro acc; rfl
  | cons v rest ih =>
    intro acc
    simp only [List.map_cons, List.foldl_cons]
    rw [← collect_inner_filter options v.2 acc]
    exact ih _

theorem foldl_argmax_spec :
    ∀ (xs : List (String × ConsensusEntry)) (x : String × ConsensusEntry),
      ((xs.foldl (fun best y => if keyOf best.2 < keyOf y.2 then y else best) x) = x ∨
        (xs.foldl (fun best y => if keyOf best.2 < keyOf y.2 then y else best) x) ∈ xs) ∧
      keyOf x.2 ≤
        keyOf (xs.foldl (fun best y => if keyOf best.2 < keyOf y.2 then y else best) x).2 ∧
      (∀ q ∈ xs, keyOf q.2 ≤
        keyOf (xs.foldl (fun best y => if keyOf best.2 < keyOf y.2 then y else best) x).2) := by
  intro xs
  induction xs with
  | nil =>
    intro x
    simp
  | cons y ys ih =>
    intro x
    simp only [List.foldl_cons]
    by_cases h : keyOf x.2 < keyOf y.2
    · rw [if_pos h]
      obtain ⟨hmem, hle, hall⟩ := ih y
      refine ⟨?_, le_trans (le_of_lt h) hle, ?_⟩
      · rcases hmem with h2 | h2
        · exact Or.inr (by rw [h2]; exact List.mem_cons_self y ys)
        · exact Or.inr (List.mem_cons_of_mem y h2)
      · intro q hq
        rcases List.mem_cons.mp hq with rfl | hq
        · exact hle
        · exact hall q hq
    · rw [if_neg h]
      obtain ⟨hmem, hle, hall⟩ := ih x
      refine ⟨?_, hle, ?_⟩
      · rcases hmem with h2 | h2
        · exact Or.inl h2
        · exact Or.inr (List.mem_cons_of_mem y h2)
      · intro q hq
        rcases List.mem_cons.mp hq with rfl | hq
        · exact le_trans (le_of_not_lt h) hle
        · exact hall q hq

theorem pythonArgmax_spec (l : List (String × ConsensusEntry))
    (b : String × ConsensusEntry) (h : pythonArgmax l = some b) :
    b ∈ l ∧ ∀ y ∈ l, keyOf y.2 ≤ keyOf b.2 := by
  cases l with
  | nil => simp [pythonArgmax] at h
  | cons x xs =>
    rw [pythonArgmax] at h
    cases h
    obtain ⟨hmem, hle, hall⟩ := foldl_argmax_spec xs x
    refine ⟨?_, ?_⟩
    · rcases hmem with h2 | h2
      · rw [h2]
        exact List.mem_cons_self x xs
      · exact List.mem_cons_of_mem x h2
    · intro q hq
      rcases List.mem_cons.mp hq with rfl | hq
      · exact hle
      · exact hall q hq

theorem consensusResults_flag (collected : List (String × List ℝ)) :
    ∀ p ∈ consensusResults collected,
      (p.2.is_consensus = true ↔ 0.7 ≤ p.2.consensus_level) := by
  intro p hp
  unfold consensusResults at hp
  obtain ⟨q, _, hfq⟩ := List.mem_filterMap.mp hp
  by_cases hq2 : q.2 = []
  · rw [if_pos hq2] at hfq
    cases hfq
  · rw [if_neg hq2] at hfq
    cases hfq
    by_cases hc : (0.7 : ℝ) ≤ 1 - Real.sqrt (pvarOf q.2)
    · simp [hc]
    · simp [hc]

theorem find?_key_of_mem (l : List (String × ConsensusEntry)) (w : String)
    (e : ConsensusEntry) (hnd : (l.map (fun p => p.1)).Nodup) (hm : (w, e) ∈ l) :
    l.find? (fun p => p.1 = w) = some (w, e) := by
  induction l with
  | nil => cases hm
  | cons q rest ih =>
    simp only [List.map_cons, List.nodup_cons] at hnd
    rcases List.mem_cons.mp hm with rfl | hm2
    · rw [List.find?_cons_of_pos]
      simp
    · have hq1 : ¬ q.1 = w := by
        intro hq1
        apply hnd.1
        rw [hq1]
        exact List.mem_map_of_mem (fun p => p.1) hm2
      rw [List.find?_cons_of_neg]
      · exact ih hnd.2 hm2
      · simp [hq1]

theorem consensus_vote_winner_eq (options : List String)
    (votes : List (String × List (String × ℝ))) :
    (consensus_vote options votes).winner =
      match pythonArgmax (consensusResults (collectScores options votes)) with
      | some b =>
        if (((consensusResults (collectScores options votes)).find?
              (fun p => p.1 = b.1)).map (fun p => p.2.is_consensus)).getD false
        then some b.1 else none
      | none => none := rfl

theorem consensus_vote_winner_iff (options : List String)
    (votes : List (String × List (String × ℝ))) (w : String) :
    (consensus_vote options votes).winner = some w ↔
      ∃ e, pythonArgmax (consensusResults (collectScores options votes)) = some (w, e) ∧
        0.7 ≤ e.consensus_level := by
  have hnd : ((consensusResults (collectScores options votes)).map
      (fun p => p.1)).Nodup :=
    List.Nodup.sublist (consensusResults_keys_sublist _)
      (collectScores_keys options votes).1
  rw [consensus_vote_winner_eq]
  cases hmax : pythonArgmax (consensusResults (collectScores options votes)) with
  | none =>
    simp
  | some b =>
    have hbmem := (pythonArgmax_spec _ b hmax).1
    have hfind := find?_key_of_mem (consensusResults (collectScores options votes))
      b.1 b.2 hnd (by simpa using hbmem)
    dsimp only
    rw [hfind]
    simp only [Option.map_some', Option.getD_some]
    have hflag := consensusResults_flag (collectScores options votes) b hbmem
    by_cases hc : b.2.is_consensus = true
    · rw [if_pos hc]
      constructor
      · intro h
        have hw : b.1 = w := by
          injection h
        refine ⟨b.2, ?_, hflag.mp hc⟩
        rw [← hw]
      · rintro ⟨e, he, _⟩
        injection he with he2
        rw [he2]
    · rw [if_neg hc]
      constructor
      · intro h
        exact absurd h (by simp)
      · rintro ⟨e, he, hge⟩
        injection he with he2
        subst he2
        exact absurd (hflag.mpr (by simpa using hge)) hc

/-- Claim C6: with every score in [0,1], consensus_vote computes per scored
option the mean and the consensus level 1 minus the population standard
deviation — equal to the clamped-at-zero level the specification describes,
since the standard deviation never exceeds 1 on such scores — picks the
candidate maximizing (consensus level, mean score) lexicographically, and
declares it winner exactly when its consensus level reaches the 0.7
threshold; an empty ballot set yields a null winner, and scores for options
outside the candidate list are ignored. -/
theorem C6_consensus_vote_characterization (options : List String)
    (votes : List (String × List (String × ℝ)))
    (hb : ∀ v ∈ votes, ∀ os ∈ v.2, 0 ≤ os.2 ∧ os.2 ≤ 1) :
    consensusResults (collectScores options votes) =
      specConsensusResults (collectScores options votes) ∧
    (∀ w, (consensus_vote options votes).winner = some w ↔
        ∃ e, pythonArgmax (consensusResults (collectScores options votes)) =
            some (w, e) ∧
          0.7 ≤ e.consensus_level) ∧
    (∀ b, pythonArgmax (consensusResults (collectScores options votes)) = some b →
        b ∈ consensusResults (collectScores options votes) ∧
        ∀ y ∈ consensusResults (collectScores options votes),
          keyOf y.2 ≤ keyOf b.2) ∧
    (votes = [] → (consensus_vote options votes).winner = none) ∧
    (∀ p ∈ collectScores options votes, p.1 ∈ options) ∧
    collectScores options votes =
      collectScores options
        (votes.map (fun v => (v.1, v.2.filter (fun os => options.contains os.1)))) := by
  refine ⟨?_, consensus_vote_winner_iff options votes, pythonArgmax_spec _, ?_, ?_,
    collectScores_filter options votes⟩
  · exact consensusResults_eq_spec _ (collectScores_bounds options votes hb)
  · intro h
    subst h
    rfl
  · intro p hp
    exact (collectScores_keys options votes).2 p.1 (List.mem_map_of_mem _ hp)

/-- Witness for C6: a single voter scoring the single option A with 1 — the
score bound holds, the code results agree with the clamped specification
results, and an empty ballot set yields no winner. -/
theorem C6_witness :
    consensusResults (collectScores ["A"] [("v", [("A", (1 : ℝ))])]) =
      specConsensusResults (collectScores ["A"] [("v", [("A", (1 : ℝ))])]) ∧
    (consensus_vote ["A"] ([] : List (String × List (String × ℝ)))).winner = none := by
  have h1 := C6_consensus_vote_characterization ["A"] [("v", [("A", (1 : ℝ))])]
    (by
      intro v hv os hos
      rw [List.mem_singleton.mp hv] at hos
      rw [List.mem_singleton.mp hos]
      norm_num)
  have h2 := C6_consensus_vote_characterization ["A"]
    ([] : List (String × List (String × ℝ))) (by simp)
  exact ⟨h1.1, h2.2.2.2.1 rfl⟩
